import Mathlib

/-! A shallow embedding of `src/api/ChatApi.js`.

The module `src/api/ChatApi.js` is glue code over three collaborators: the
browser key-value store (`localStorage`), an HTTP transport (`axios`) and a
STOMP messaging client.  The embedding keeps the control flow of every helper
(guards, `try`/`catch`, early returns) and makes the collaborators explicit:

* JavaScript values are the data universe `JSVal`; strings are well-formed
  Unicode strings (`String`), numbers are exact decimals (no IEEE rounding);
* effects (publish, console output, callback invocation, HTTP GET) are recorded
  in a trace by the monad `JS`, which also carries thrown values;
* the language built-ins used by the module (`JSON.stringify`, `JSON.parse`,
  `Date.prototype.toISOString`, `ToBoolean`) are given executable definitions;
* the arguments the data model of the specification types as strings or
  identifiers (message, user id, nickname, chatroom id, token) are strings, an
  optional argument is an `Option`; the `stompClient` argument is `undefined`,
  `null` or a client object with a `connected` property of any value;
* `publish`, `subscribe` and `api.get` are the collaborators' primitives:
  publishing records the frame, subscribing returns the topic with the
  installed handler, and the transport is a function from the requested path
  to a response or an error.
-/

namespace ChatApi

/-! ## JavaScript values -/

/-- A thrown JavaScript value, reduced to the name and message of the error. -/
structure JSError where
  name : String
  message : String
deriving DecidableEq, Repr

/-- A JavaScript number.  Finite numbers are held exactly as
`mantissa * 10 ^ exponent`; rounding to a double is not modelled. -/
inductive JSNumber where
  | nan
  | posInfinity
  | negInfinity
  | decimal (mantissa : Int) (exponent : Int)
deriving DecidableEq, Repr

/-- JavaScript data values: the primitives, arrays and plain objects.  An
object is its list of own properties in insertion order. -/
inductive JSVal where
  | undefined
  | null
  | bool (b : Bool)
  | number (n : JSNumber)
  | string (s : String)
  | array (items : List JSVal)
  | object (props : List (String × JSVal))
deriving Repr

/-- The abstract operation ToBoolean on numbers: zero and NaN are falsy. -/
def JSNumber.toBoolean : JSNumber → Bool
  | .nan => false
  | .posInfinity => true
  | .negInfinity => true
  | .decimal m _ => decide (m ≠ 0)

/-- The abstract operation ToBoolean ("truthiness"). -/
def JSVal.toBoolean : JSVal → Bool
  | .undefined => false
  | .null => false
  | .bool b => b
  | .number n => n.toBoolean
  | .string s => decide (s ≠ "")
  | .array _ => true
  | .object _ => true

/-- Truthiness of the result of `localStorage.getItem` or of an optional string
argument: `null`/`undefined` and the empty string are falsy. -/
def truthyString : Option String → Bool
  | none => false
  | some s => decide (s ≠ "")

/-! ## Effects -/

/-- The argument object of `stompClient.publish`. -/
structure PublishParams where
  destination : String
  body : String
  headers : List (String × String)
deriving DecidableEq, Repr

/-- Observable effects of the module, in the order they happen. -/
inductive Event where
  | publish (params : PublishParams)
  | consoleError (label : String) (error : Option JSError)
  | consoleLog (label : String) (error : Option JSError)
  | callback (arg : JSVal)
  | httpGet (url : String)
deriving Repr

/-- Computations of the module: they extend a trace of events and either
return a value or throw. -/
def JS (α : Type) : Type := List Event → Except JSError α × List Event

instance : Monad JS where
  pure a := fun tr => (.ok a, tr)
  bind m f := fun tr =>
    match m tr with
    | (.ok a, tr1) => f a tr1
    | (.error e, tr1) => (.error e, tr1)

instance : MonadExcept JSError JS where
  throw e := fun tr => (.error e, tr)
  tryCatch m h := fun tr =>
    match m tr with
    | (.ok a, tr1) => (.ok a, tr1)
    | (.error e, tr1) => h e tr1

/-- Append one event to the trace. -/
def emit (e : Event) : JS Unit := fun tr => (.ok (), tr ++ [e])

/-- Lift the result of a pure, possibly throwing, operation. -/
def liftExcept {α : Type} (r : Except JSError α) : JS α := fun tr => (r, tr)

/-- Run a computation from the empty trace. -/
def JS.run {α : Type} (m : JS α) : Except JSError α × List Event := m []

/-- The frames handed to `publish` in a trace. -/
def publishedFrames : List Event → List PublishParams
  | [] => []
  | .publish p :: es => p :: publishedFrames es
  | _ :: es => publishedFrames es

/-- The arguments with which the caller-supplied callback was invoked. -/
def callbackArgs : List Event → List JSVal
  | [] => []
  | .callback v :: es => v :: callbackArgs es
  | _ :: es => callbackArgs es

/-- The number of console entries (`console.error` or `console.log`) in a trace. -/
def logCount : List Event → Nat
  | [] => 0
  | .consoleError _ _ :: es => logCount es + 1
  | .consoleLog _ _ :: es => logCount es + 1
  | _ :: es => logCount es

/-- The paths requested from the HTTP transport in a trace. -/
def requestedPaths : List Event → List String
  | [] => []
  | .httpGet u :: es => u :: requestedPaths es
  | _ :: es => requestedPaths es

/-! ## Built-ins: `JSON.stringify` on string records -/

/-- Lower-case hexadecimal digit of a value below sixteen. -/
def hexDigit (n : Nat) : Char :=
  if n < 10 then Char.ofNat (48 + n) else Char.ofNat (87 + n)

/-- The escape of one code point in QuoteJSONString (ECMA-262, 25.5.2.3):
the short escapes, `\u00XX` for the other control characters, and the code
point itself otherwise. -/
def escapeChar (c : Char) : List Char :=
  if c = '"' then ['\\', '"']
  else if c = '\\' then ['\\', '\\']
  else if c = '\x08' then ['\\', 'b']
  else if c = '\x0c' then ['\\', 'f']
  else if c = '\n' then ['\\', 'n']
  else if c = '\r' then ['\\', 'r']
  else if c = '\t' then ['\\', 't']
  else if c.toNat < 32 then
    ['\\', 'u', '0', '0', hexDigit (c.toNat / 16), hexDigit (c.toNat % 16)]
  else [c]

/-- Escapes of all code points of a string, in order. -/
def escapeChars : List Char → List Char
  | [] => []
  | c :: cs => escapeChar c ++ escapeChars cs

/-- QuoteJSONString: the escaped text between double quotes. -/
def quoteJSONString (s : String) : List Char :=
  '"' :: (escapeChars s.data ++ ['"'])

/-- The members of a serialised object after the first one, each preceded by
a comma. -/
def stringifyMembersTail : List (String × String) → List Char
  | [] => []
  | (k, v) :: ps =>
    ',' :: (quoteJSONString k ++ ':' :: (quoteJSONString v ++ stringifyMembersTail ps))

/-- The text between the braces of a serialised object. -/
def stringifyMembers : List (String × String) → List Char
  | [] => []
  | (k, v) :: ps =>
    quoteJSONString k ++ ':' :: (quoteJSONString v ++ stringifyMembersTail ps)

/-- The built-in `JSON.stringify` (no replacer, no indentation) applied to a plain object
whose property values are all strings, given as the list of its properties in
insertion order. -/
def JSONstringify (props : List (String × String)) : String :=
  String.mk ('\x7b' :: (stringifyMembers props ++ ['\x7d']))

/-! ## Built-ins: `Date.prototype.toISOString` -/

/-- Decimal digits of `n`, left-padded with zeros to at least `width`. -/
def padDigits (width n : Nat) : String :=
  let ds := Nat.repr n
  String.mk (List.replicate (width - ds.length) '0') ++ ds

/-- Year, month (1 to 12) and day of month of a day number counted from
1970-01-01, in the proleptic Gregorian calendar. -/
def civilFromDays (days : Int) : Int × Nat × Nat :=
  let z := days + 719468
  let era := z / 146097
  let doe := (z - era * 146097).toNat
  let yoe := (doe - doe / 1460 + doe / 36524 - doe / 146096) / 365
  let doy := doe - (365 * yoe + yoe / 4 - yoe / 100)
  let mp := (5 * doy + 2) / 153
  let d := doy - (153 * mp + 2) / 5 + 1
  let m := if mp < 10 then mp + 3 else mp - 9
  let y := (yoe : Int) + era * 400
  (if m ≤ 2 then y + 1 else y, m, d)

/-- The year field of `toISOString`: four digits for the years 0 to 9999, a
sign and six digits otherwise. -/
def isoYear (y : Int) : String :=
  if 0 ≤ y ∧ y ≤ 9999 then padDigits 4 y.toNat
  else if y < 0 then "-" ++ padDigits 6 (-y).toNat
  else "+" ++ padDigits 6 y.toNat

/-- The result of `new Date(t).toISOString()` for a time value `t` in milliseconds since the
epoch, UTC. -/
def toISOString (t : Int) : String :=
  let days := t / 86400000
  let ms := (t % 86400000).toNat
  let (y, m, d) := civilFromDays days
  isoYear y ++ "-" ++ padDigits 2 m ++ "-" ++ padDigits 2 d ++ "T"
    ++ padDigits 2 (ms / 3600000) ++ ":" ++ padDigits 2 (ms / 60000 % 60) ++ ":"
    ++ padDigits 2 (ms / 1000 % 60) ++ "." ++ padDigits 3 (ms % 1000) ++ "Z"

/-! ## Built-ins: `JSON.parse` -/

/-- JSON whitespace: space, tab, line feed, carriage return. -/
def isJSONWhitespace (c : Char) : Bool :=
  c = ' ' || c = '\t' || c = '\n' || c = '\r'

/-- Drop leading JSON whitespace. -/
def skipWhitespace : List Char → List Char
  | [] => []
  | c :: cs => if isJSONWhitespace c then skipWhitespace cs else c :: cs

/-- Value of a hexadecimal digit, either case. -/
def hexValue (c : Char) : Option Nat :=
  if 48 ≤ c.toNat ∧ c.toNat ≤ 57 then some (c.toNat - 48)
  else if 97 ≤ c.toNat ∧ c.toNat ≤ 102 then some (c.toNat - 87)
  else if 65 ≤ c.toNat ∧ c.toNat ≤ 70 then some (c.toNat - 55)
  else none

/-- Value of the four hexadecimal digits of a `\uXXXX` escape. -/
def hex4 (a b c d : Char) : Option Nat :=
  match hexValue a, hexValue b, hexValue c, hexValue d with
  | some x, some y, some z, some w => some (((x * 16 + y) * 16 + z) * 16 + w)
  | _, _, _, _ => none

/-- The character of a one-letter escape, if the letter is one. -/
def simpleEscape (e : Char) : Option Char :=
  if e = '"' then some '"'
  else if e = '\\' then some '\\'
  else if e = '/' then some '/'
  else if e = 'b' then some '\x08'
  else if e = 'f' then some '\x0c'
  else if e = 'n' then some '\n'
  else if e = 'r' then some '\r'
  else if e = 't' then some '\t'
  else none

/-- The character denoted by one escaped UTF-16 code unit taken alone: the
code point itself, or U+FFFD for a surrogate without its partner (such a
string is not well-formed Unicode). -/
def codeUnitChar (u : Nat) : Char :=
  if 0xD800 ≤ u ∧ u ≤ 0xDFFF then Char.ofNat 0xFFFD else Char.ofNat u

/-- Prepend a decoded character to the result of decoding the rest. -/
def consChar (c : Char) : Option (List Char × List Char) → Option (List Char × List Char)
  | none => none
  | some (s, rest) => some (c :: s, rest)

/-- Decode one escape sequence after its backslash: a one-letter escape, a
`\uXXXX` escape, or a surrogate pair written as two `\uXXXX` escapes.
Returns the character and the remaining input. -/
def decodeEscape : List Char → Option (Char × List Char)
  | [] => none
  | e :: rest =>
    if e = 'u' then
      match rest with
      | h1 :: h2 :: h3 :: h4 :: rest1 =>
        match hex4 h1 h2 h3 h4 with
        | none => none
        | some hi =>
          if 0xD800 ≤ hi ∧ hi ≤ 0xDBFF then
            match rest1 with
            | b :: u :: l1 :: l2 :: l3 :: l4 :: rest2 =>
              if b = '\\' ∧ u = 'u' then
                match hex4 l1 l2 l3 l4 with
                | none => some (codeUnitChar hi, rest1)
                | some lo =>
                  if 0xDC00 ≤ lo ∧ lo ≤ 0xDFFF then
                    some (Char.ofNat (0x10000 + (hi - 0xD800) * 0x400 + (lo - 0xDC00)), rest2)
                  else some (codeUnitChar hi, rest1)
              else some (codeUnitChar hi, rest1)
            | _ => some (codeUnitChar hi, rest1)
          else some (codeUnitChar hi, rest1)
      | _ => none
    else
      match simpleEscape e with
      | none => none
      | some ch => some (ch, rest)

/-- Decode the characters of a JSON string after its opening quote, up to and
including the closing quote; returns the decoded characters and the remaining
input.  Unescaped control characters are rejected.  Every step consumes input,
so fuel equal to the length of the input is never exhausted. -/
def parseStringChars : Nat → List Char → Option (List Char × List Char)
  | 0, _ => none
  | _ + 1, [] => none
  | fuel + 1, c :: rest =>
    if c = '"' then some ([], rest)
    else if c = '\\' then
      match decodeEscape rest with
      | none => none
      | some (ch, rest1) => consChar ch (parseStringChars fuel rest1)
    else if c.toNat < 32 then none
    else consChar c (parseStringChars fuel rest)

/-- A JSON string after its opening quote. -/
def parseString (cs : List Char) : Option (List Char × List Char) :=
  parseStringChars cs.length cs

/-- Value of a decimal digit character. -/
def digitValue (c : Char) : Option Nat :=
  if 48 ≤ c.toNat ∧ c.toNat ≤ 57 then some (c.toNat - 48) else none

/-- Read a maximal run of decimal digits: the number they denote after the
accumulator, how many were read, and the remaining input. -/
def takeDigits : List Char → Nat → Nat → Nat × Nat × List Char
  | [], acc, n => (acc, n, [])
  | c :: cs, acc, n =>
    match digitValue c with
    | some d => takeDigits cs (acc * 10 + d) (n + 1)
    | none => (acc, n, c :: cs)

/-- Strip factors of ten from a mantissa, so that equal numbers get equal
representations; zero is `0 * 10 ^ 0`. -/
def normalizeDecimal : Nat → Int → Int → JSNumber
  | 0, m, e => if m = 0 then .decimal 0 0 else .decimal m e
  | fuel + 1, m, e =>
    if m = 0 then .decimal 0 0
    else if m % 10 = 0 then normalizeDecimal fuel (m / 10) (e + 1)
    else .decimal m e

/-- The optional exponent part of a JSON number: `e` or `E`, an optional sign
and at least one digit.  Returns the exponent and the remaining input, or
`none` when an exponent marker is not followed by digits. -/
def parseExponent : List Char → Option (Int × List Char)
  | [] => some (0, [])
  | c :: cs =>
    if c = 'e' ∨ c = 'E' then
      match cs with
      | [] => none
      | s :: cs1 =>
        if s = '-' then
          match takeDigits cs1 0 0 with
          | (_, 0, _) => none
          | (v, _, rest) => some (-(v : Int), rest)
        else if s = '+' then
          match takeDigits cs1 0 0 with
          | (_, 0, _) => none
          | (v, _, rest) => some ((v : Int), rest)
        else
          match takeDigits (s :: cs1) 0 0 with
          | (_, 0, _) => none
          | (v, _, rest) => some ((v : Int), rest)
    else some (0, c :: cs)

/-- The optional fraction part of a JSON number after the integer part `ip`:
a point and at least one digit.  Returns the digits read so far as one
number, the count of fraction digits, and the remaining input. -/
def parseFraction (ip : Nat) : List Char → Option (Nat × Nat × List Char)
  | [] => some (ip, 0, [])
  | c :: cs =>
    if c = '.' then
      match takeDigits cs ip 0 with
      | (_, 0, _) => none
      | (v, n, rest) => some (v, n, rest)
    else some (ip, 0, c :: cs)

/-- An unsigned JSON number: `0` or a digit run without leading zero, then the
optional fraction and exponent. -/
def parseUnsigned (cs : List Char) : Option (Nat × Int × List Char) :=
  match cs with
  | [] => none
  | c :: rest =>
    match digitValue c with
    | none => none
    | some d =>
      let (ip, _, rest1) := if d = 0 then (0, 1, rest) else takeDigits rest d 1
      match parseFraction ip rest1 with
      | none => none
      | some (v, n, rest2) =>
        match parseExponent rest2 with
        | none => none
        | some (e, rest3) => some (v, e - (n : Int), rest3)

/-- A JSON number with its optional minus sign. -/
def parseNumber (cs : List Char) : Option (JSVal × List Char) :=
  match cs with
  | [] => none
  | c :: rest =>
    if c = '-' then
      match parseUnsigned rest with
      | none => none
      | some (v, e, rest1) => some (.number (normalizeDecimal rest.length (-(v : Int)) e), rest1)
    else
      match parseUnsigned (c :: rest) with
      | none => none
      | some (v, e, rest1) => some (.number (normalizeDecimal (c :: rest).length (v : Int) e), rest1)

/-- Match a fixed word at the head of the input. -/
def expectWord : List Char → List Char → Option (List Char)
  | [], cs => some cs
  | _ :: _, [] => none
  | w :: ws, c :: cs => if w = c then expectWord ws cs else none

/-- Define a property on an object under construction: an existing key keeps
its position and takes the new value, a new key is appended. -/
def setProperty (key : String) (v : JSVal) : List (String × JSVal) → List (String × JSVal)
  | [] => [(key, v)]
  | (k, w) :: ps => if k = key then (k, v) :: ps else (k, w) :: setProperty key v ps

mutual

/-- A JSON value, after optional whitespace.  The fuel bounds the number of
nested calls; `JSONparse` supplies more than any input can use
(`JSONparse_fuel_independent`). -/
def parseValue : Nat → List Char → Option (JSVal × List Char)
  | 0, _ => none
  | fuel + 1, cs =>
    match skipWhitespace cs with
    | [] => none
    | c :: rest =>
      if c = '\x7b' then
        match skipWhitespace rest with
        | [] => none
        | d :: rest1 =>
          if d = '\x7d' then some (.object [], rest1)
          else parseMembers fuel (d :: rest1) []
      else if c = '[' then
        match skipWhitespace rest with
        | [] => none
        | d :: rest1 =>
          if d = ']' then some (.array [], rest1)
          else parseElements fuel (d :: rest1) []
      else if c = '"' then
        match parseString rest with
        | none => none
        | some (s, rest1) => some (.string (String.mk s), rest1)
      else if c = 't' then
        match expectWord ['r', 'u', 'e'] rest with
        | none => none
        | some rest1 => some (.bool true, rest1)
      else if c = 'f' then
        match expectWord ['a', 'l', 's', 'e'] rest with
        | none => none
        | some rest1 => some (.bool false, rest1)
      else if c = 'n' then
        match expectWord ['u', 'l', 'l'] rest with
        | none => none
        | some rest1 => some (.null, rest1)
      else parseNumber (c :: rest)

/-- The elements of a non-empty array up to the closing bracket; `acc` holds
the elements read so far. -/
def parseElements : Nat → List Char → List JSVal → Option (JSVal × List Char)
  | 0, _, _ => none
  | fuel + 1, cs, acc =>
    match parseValue fuel cs with
    | none => none
    | some (v, rest) =>
      match skipWhitespace rest with
      | [] => none
      | c :: rest1 =>
        if c = ',' then parseElements fuel rest1 (acc ++ [v])
        else if c = ']' then some (.array (acc ++ [v]), rest1)
        else none

/-- The members of a non-empty object up to the closing brace; `acc` holds
the properties defined so far. -/
def parseMembers : Nat → List Char → List (String × JSVal) → Option (JSVal × List Char)
  | 0, _, _ => none
  | fuel + 1, cs, acc =>
    match skipWhitespace cs with
    | [] => none
    | q :: rest =>
      if q = '"' then
        match parseString rest with
        | none => none
        | some (k, rest1) =>
          match skipWhitespace rest1 with
          | [] => none
          | colon :: rest2 =>
            if colon = ':' then
              match parseValue fuel rest2 with
              | none => none
              | some (v, rest3) =>
                match skipWhitespace rest3 with
                | [] => none
                | c :: rest4 =>
                  if c = ',' then parseMembers fuel rest4 (setProperty (String.mk k) v acc)
                  else if c = '\x7d' then
                    some (.object (setProperty (String.mk k) v acc), rest4)
                  else none
            else none
      else none

end

/-- The error thrown by `JSON.parse` on a text that is not JSON. -/
def jsonSyntaxError : JSError :=
  { name := "SyntaxError", message := "Unexpected token in JSON" }

/-- The built-in `JSON.parse` (no reviver): one JSON value surrounded by optional
whitespace, or a SyntaxError. -/
def JSONparse (text : String) : Except JSError JSVal :=
  match parseValue (2 * text.length + 2) text.data with
  | none => .error jsonSyntaxError
  | some (v, rest) =>
    match skipWhitespace rest with
    | [] => .ok v
    | _ :: _ => .error jsonSyntaxError

/-! ## Collaborators -/

/-- The browser key-value store: its entries, one per key. -/
abbrev Storage := List (String × String)

/-- The call `localStorage.getItem(key)`: the stored string, or `none` for `null`. -/
def Storage.getItem (localStorage : Storage) (key : String) : Option String :=
  localStorage.lookup key

/-- String conversion, inside a template literal, of a value that is a string
or `null`. -/
def nullableToString : Option String → String
  | none => "null"
  | some s => s

/-- String conversion, inside a template literal, of an optional string
argument; an omitted argument is `undefined`. -/
def optionalToString : Option String → String
  | none => "undefined"
  | some s => s

/-- The request configuration handed to a request interceptor, reduced to the
target and the header object. -/
structure RequestConfig where
  url : String
  headers : List (String × String)
deriving DecidableEq, Repr

/-- Assignment to a property of a header object: an existing name takes the
new value, a new name is appended. -/
def setHeader (name value : String) : List (String × String) → List (String × String)
  | [] => [(name, value)]
  | (k, w) :: hs => if k = name then (k, value) :: hs else (k, w) :: setHeader name value hs

/-- The options given to the SockJS constructor. -/
structure SockJSOptions where
  transports : List String
  withCredentials : Bool
deriving DecidableEq, Repr

/-- A SockJS socket, as constructed: endpoint and options. -/
structure SockJSSocket where
  url : String
  options : SockJSOptions
deriving DecidableEq, Repr

/-- The configuration object given to the STOMP `Client` constructor; the
factory field is represented by the socket it returns. -/
structure StompConfig where
  webSocketFactory : SockJSSocket
  connectHeaders : List (String × String)
  reconnectDelay : Nat
  heartbeatIncoming : Nat
  heartbeatOutgoing : Nat
deriving DecidableEq, Repr

/-- A messaging client object: the value of its `connected` property. -/
structure StompClient where
  connected : JSVal

/-- The value passed as the `stompClient` argument. -/
inductive ClientRef where
  | undefined
  | null
  | client (c : StompClient)

/-- The error of calling a method on `null` or `undefined`. -/
def typeError : JSError :=
  { name := "TypeError", message := "Cannot read properties of null or undefined" }

/-- The guard `!stompClient || !stompClient.connected`; the right operand is
only evaluated on a client object. -/
def notConnected : ClientRef → Bool
  | .undefined => true
  | .null => true
  | .client c => !c.connected.toBoolean

/-- The call `stompClient.publish(params)`: the client records the frame. -/
def ClientRef.publish : ClientRef → PublishParams → JS Unit
  | .client _, params => emit (.publish params)
  | _, _ => throw typeError

/-- An inbound frame, reduced to its body. -/
structure Frame where
  body : String
deriving DecidableEq, Repr

/-- The handle returned by `stompClient.subscribe`: the topic and the frame
handler registered for it. -/
structure Subscription where
  destination : String
  onMessage : Frame → JS Unit

/-- The call `stompClient.subscribe(destination, handler)`. -/
def ClientRef.subscribe : ClientRef → String → (Frame → JS Unit) → JS Subscription
  | .client _, destination, handler => pure { destination := destination, onMessage := handler }
  | _, _, _ => throw typeError

/-- A caller-supplied callback: it returns or throws. -/
abbrev Callback := JSVal → Except JSError Unit

/-- Call the callback, recording the call. -/
def invoke (callback : Callback) (v : JSVal) : JS Unit := do
  emit (.callback v)
  liftExcept (callback v)

/-- An HTTP response, reduced to its decoded body. -/
structure Response where
  data : JSVal

/-- The HTTP transport behind `api.get`: a response or an error per path. -/
abbrev Transport := String → Except JSError Response

/-- The expression `await api.get(url)`. -/
def apiGet (api : Transport) (url : String) : JS Response := do
  emit (.httpGet url)
  liftExcept (api url)

/-! ## The module -/

/-- The request interceptor of lines 15 to 22. -/
def requestInterceptor (localStorage : Storage) (config : RequestConfig) : RequestConfig :=
  let token := localStorage.getItem "token"
  if truthyString token then
    { config with
      headers := setHeader "Authorization" ("Bearer " ++ nullableToString token) config.headers }
  else config

/-- The function `createStompClient`: the configuration of the client it builds. -/
def createStompClient (localStorage : Storage) : StompConfig :=
  let token := localStorage.getItem "token"
  let socket : SockJSSocket :=
    { url := "http://localhost/ws"
      options :=
        { transports := ["websocket", "xhr-streaming", "xhr-polling"]
          withCredentials := false } }
  { webSocketFactory := socket
    connectHeaders :=
      [("Authorization", if truthyString token then "Bearer " ++ nullableToString token else "")]
    reconnectDelay := 5000
    heartbeatIncoming := 4000
    heartbeatOutgoing := 4000 }

/-- The function `chatAPI.getChatHistory`. -/
def getChatHistory (api : Transport) (chatroomId : Option String) : JS JSVal := do
  try
    let response ← apiGet api
      ("/history" ++ (if truthyString chatroomId then "/" ++ optionalToString chatroomId else ""))
    return response.data
  catch error =>
    emit (.consoleError "채팅 히스토리 조회 오류:" (some error))
    throw error

/-- The function `chatAPI.sendMessage`; `now` is the time value read by `new Date()`. -/
def sendMessage (now : Int) (stompClient : ClientRef)
    (message userId nickname chatroomId : String) : JS Bool := do
  if notConnected stompClient then
    emit (.consoleError "WebSocket이 연결되어 있지 않습니다." none)
    return false
  let chatMessage :=
    [("type", "text"), ("content", message), ("userId", userId),
     ("sender_nickname", nickname), ("chatroomId", chatroomId),
     ("sentAt", toISOString now)]
  stompClient.publish
    { destination := "/app/chat.send/" ++ chatroomId
      body := JSONstringify chatMessage
      headers := [("content-type", "application/json")] }
  return true

/-- The frame handler installed by `chatAPI.subscribeToMessages`. -/
def subscribeToMessages.handler (callback : Callback) (message : Frame) : JS Unit := do
  try
    let receivedMessage ← liftExcept (JSONparse message.body)
    invoke callback receivedMessage
  catch _ =>
    pure ()

/-- The function `chatAPI.subscribeToMessages`. -/
def subscribeToMessages (stompClient : ClientRef) (chatroomId : String)
    (callback : Callback) : JS Subscription :=
  stompClient.subscribe ("/topic/chat/" ++ chatroomId) (subscribeToMessages.handler callback)

/-- The function `chatAPI.getChatrooms`. -/
def getChatrooms (api : Transport) : JS JSVal := do
  try
    let response ← apiGet api "/rooms"
    return response.data
  catch error =>
    throw error

/-- The function `chatAPI.getRoomParticipants`. -/
def getRoomParticipants (api : Transport) (chatroomId : String) : JS JSVal := do
  try
    let response ← apiGet api ("/participants/" ++ chatroomId)
    return response.data
  catch error =>
    throw error

/-- The frame handler installed by `chatAPI.subscribeToParticipants`. -/
def subscribeToParticipants.handler (callback : Callback) (message : Frame) : JS Unit := do
  try
    let participantUpdate ← liftExcept (JSONparse message.body)
    invoke callback participantUpdate
  catch error =>
    emit (.consoleLog "참여자 정보 파싱 오류 : " (some error))

/-- The function `chatAPI.subscribeToParticipants`. -/
def subscribeToParticipants (stompClient : ClientRef) (chatroomId : String)
    (callback : Callback) : JS Subscription :=
  stompClient.subscribe ("/topic/participants/" ++ chatroomId)
    (subscribeToParticipants.handler callback)

/-- The function `chatAPI.sendJoinMessage`. -/
def sendJoinMessage (stompClient : ClientRef) (userId nickname chatroomId : String) :
    JS Bool := do
  if notConnected stompClient then
    return false
  let joinMessage := [("userId", userId), ("nickname", nickname)]
  stompClient.publish
    { destination := "/app/chat.join/" ++ chatroomId
      body := JSONstringify joinMessage
      headers := [("content-type", "application/json")] }
  return true

/-- The function `chatAPI.sendLeaveMessage`. -/
def sendLeaveMessage (stompClient : ClientRef) (userId nickname chatroomId : String) :
    JS Bool := do
  if notConnected stompClient then
    return false
  let leaveMessage := [("userId", userId), ("nickname", nickname)]
  stompClient.publish
    { destination := "/app/chat.leave/" ++ chatroomId
      body := JSONstringify leaveMessage
      headers := [("content-type", "application/json")] }
  return true

/-! ## Vocabulary of the specification -/

/-- The client "reports an active connection": it is a client object whose
`connected` flag is truthy (neither missing nor falsy). -/
def ClientRef.reportsConnected : ClientRef → Bool
  | .undefined => false
  | .null => false
  | .client c => c.connected.toBoolean

/-- The object a record of strings denotes: its properties defined in order
on top of `acc`, each value a string. -/
def defineAll : List (String × String) → List (String × JSVal) → List (String × JSVal)
  | [], acc => acc
  | (k, v) :: ps, acc => defineAll ps (setProperty k (.string v) acc)

/-! ### Reading the date-time string format

The calendar of ECMA-262 (DayFromYear, MakeDay, MakeDate) and a reader of the
format `YYYY-MM-DDTHH:mm:ss.sssZ`, against which `toISOString` is checked. -/

/-- The ECMA-262 day number of the first day of year `y` (DayFromYear). -/
def dayFromYear (y : Int) : Int :=
  365 * (y - 1970) + (y - 1969) / 4 - (y - 1901) / 100 + (y - 1601) / 400

/-- Leap years of the proleptic Gregorian calendar. -/
def isLeapYear (y : Int) : Bool :=
  decide (y % 4 = 0) && (decide (y % 100 ≠ 0) || decide (y % 400 = 0))

/-- Days of the year before the first day of month `m` (1 to 12). -/
def daysBeforeMonth (leap : Bool) (m : Nat) : Nat :=
  let base := [0, 31, 59, 90, 120, 151, 181, 212, 243, 273, 304, 334].getD (m - 1) 0
  if leap ∧ 2 < m then base + 1 else base

/-- Number of days of month `m` (1 to 12). -/
def daysInMonth (leap : Bool) (m : Nat) : Nat :=
  if m = 2 then (if leap then 29 else 28)
  else if m = 4 ∨ m = 6 ∨ m = 9 ∨ m = 11 then 30 else 31

/-- The time value of a UTC calendar date and time of day (MakeDay, MakeTime
and MakeDate of ECMA-262). -/
def timeFromFields (y : Int) (m d h mi s ms : Nat) : Int :=
  (dayFromYear y + (daysBeforeMonth (isLeapYear y) m : Int) + (d : Int) - 1) * 86400000
    + (h : Int) * 3600000 + (mi : Int) * 60000 + (s : Int) * 1000 + (ms : Int)

/-- The number denoted by a run of decimal digits read after the accumulator;
`none` when a character is not a digit. -/
def digitsValue : Nat → List Char → Option Nat
  | acc, [] => some acc
  | acc, c :: cs =>
    match digitValue c with
    | some v => digitsValue (acc * 10 + v) cs
    | none => none

/-- Read a field of exactly `width` decimal digits. -/
def takeNumber (width : Nat) (cs : List Char) : Option (Nat × List Char) :=
  if width ≤ cs.length then
    match digitsValue 0 (cs.take width) with
    | some v => some (v, cs.drop width)
    | none => none
  else none

/-- Read one given character. -/
def expectChar (c : Char) : List Char → Option (List Char)
  | [] => none
  | x :: cs => if x = c then some cs else none

/-- The year field of the date-time string format: four digits, or a sign and
six digits (expanded years). -/
def parseISOYear : List Char → Option (Int × List Char)
  | [] => none
  | c :: cs =>
    if c = '+' then
      match takeNumber 6 cs with
      | some (y, rest) => some ((y : Int), rest)
      | none => none
    else if c = '-' then
      match takeNumber 6 cs with
      | some (y, rest) => if y = 0 then none else some (-(y : Int), rest)
      | none => none
    else
      match takeNumber 4 (c :: cs) with
      | some (y, rest) => some ((y : Int), rest)
      | none => none

/-- Read a separator character and then a field of `width` digits. -/
def takeField (sep : Char) (width : Nat) (cs : List Char) : Option (Nat × List Char) :=
  match expectChar sep cs with
  | none => none
  | some rest => takeNumber width rest

/-- Range check of calendar and clock fields. -/
def validFields (y : Int) (m d h mi s : Nat) : Bool :=
  decide (1 ≤ m) && decide (m ≤ 12) && decide (1 ≤ d)
    && decide (d ≤ daysInMonth (isLeapYear y) m)
    && decide (h < 24) && decide (mi < 60) && decide (s < 60)

/-- The fields of the clock part `THH:mm:ss.sssZ`, which must end the text. -/
def parseISOClock (cs : List Char) : Option (Nat × Nat × Nat × Nat) :=
  match takeField 'T' 2 cs with
  | none => none
  | some (h, c1) =>
    match takeField ':' 2 c1 with
    | none => none
    | some (mi, c2) =>
      match takeField ':' 2 c2 with
      | none => none
      | some (s, c3) =>
        match takeField '.' 3 c3 with
        | none => none
        | some (ms, c4) =>
          match expectChar 'Z' c4 with
          | some [] => some (h, mi, s, ms)
          | _ => none

/-- The time value denoted by a string in the format of `toISOString`
(`YYYY-MM-DDTHH:mm:ss.sssZ`, with `±YYYYYY` for expanded years), as
`Date.parse` reads it; `none` when the string is not in that format or a field
is out of range. -/
def parseISO (text : String) : Option Int :=
  match parseISOYear text.data with
  | none => none
  | some (y, c0) =>
    match takeField '-' 2 c0 with
    | none => none
    | some (m, c1) =>
      match takeField '-' 2 c1 with
      | none => none
      | some (d, c2) =>
        match parseISOClock c2 with
        | none => none
        | some (h, mi, s, ms) =>
          if validFields y m d h mi s then some (timeFromFields y m d h mi s ms) else none

/-- The headers every publish helper sends. -/
def jsonContentType : List (String × String) := [("content-type", "application/json")]

/-! ## The string round trip of `JSON.stringify` and `JSON.parse` -/


theorem hex4_control : ∀ n < 32, hex4 '0' '0' (hexDigit (n / 16)) (hexDigit (n % 16)) = some n := by
  decide

theorem decodeEscape_escapeChar (c : Char) (tail : List Char)
    (h : c = '"' ∨ c = '\\' ∨ c.toNat < 32) :
    ∃ e, escapeChar c = '\\' :: e ∧ decodeEscape (e ++ tail) = some (c, tail) := by
  unfold escapeChar
  split_ifs with a1 a2 a3 a4 a5 a6 a7 a8
  · subst a1; exact ⟨_, rfl, by simp [decodeEscape, simpleEscape]⟩
  · subst a2; exact ⟨_, rfl, by simp [decodeEscape, simpleEscape]⟩
  · subst a3; exact ⟨_, rfl, by simp [decodeEscape, simpleEscape]⟩
  · subst a4; exact ⟨_, rfl, by simp [decodeEscape, simpleEscape]⟩
  · subst a5; exact ⟨_, rfl, by simp [decodeEscape, simpleEscape]⟩
  · subst a6; exact ⟨_, rfl, by simp [decodeEscape, simpleEscape]⟩
  · subst a7; exact ⟨_, rfl, by simp [decodeEscape, simpleEscape]⟩
  · refine ⟨_, rfl, ?_⟩
    have h5 : ¬ (0xD800 ≤ c.toNat ∧ c.toNat ≤ 0xDBFF) := by omega
    have h6 : ¬ (0xD800 ≤ c.toNat ∧ c.toNat ≤ 0xDFFF) := by omega
    simp [decodeEscape, hex4_control _ a8, h5, h6, codeUnitChar]
  · rcases h with h | h | h <;> contradiction

theorem length_le_escapeChars (cs : List Char) : cs.length ≤ (escapeChars cs).length := by
  induction cs with
  | nil => simp [escapeChars]
  | cons c cs ih =>
    have h : 1 ≤ (escapeChar c).length := by
      unfold escapeChar
      split_ifs <;> simp
    simp only [escapeChars, List.length_append, List.length_cons]
    omega

theorem parseStringChars_escapeChars (cs rest : List Char) (fuel : Nat) (hf : cs.length < fuel) :
    parseStringChars fuel (escapeChars cs ++ '"' :: rest) = some (cs, rest) := by
  induction cs generalizing fuel with
  | nil =>
    obtain ⟨k, rfl⟩ : ∃ k, fuel = k + 1 := ⟨fuel - 1, by simp at hf; omega⟩
    simp [escapeChars, parseStringChars]
  | cons c cs ih =>
    obtain ⟨k, rfl⟩ : ∃ k, fuel = k + 1 := ⟨fuel - 1, by simp at hf; omega⟩
    have hk : cs.length < k := by simpa using hf
    by_cases h : c = '"' ∨ c = '\\' ∨ c.toNat < 32
    · obtain ⟨e, he, hd⟩ := decodeEscape_escapeChar c (escapeChars cs ++ '"' :: rest) h
      simp [escapeChars, he, parseStringChars, hd, ih k hk, consChar]
    · push_neg at h
      obtain ⟨h1, h2, h3⟩ := h
      have he : escapeChar c = [c] := by
        unfold escapeChar
        split_ifs with a1 a2 a3 a4 a5 a6 a7
        all_goals first | rfl | contradiction | (exfalso; omega) | (exfalso; subst_vars; revert h3; decide)
      simp [escapeChars, he, parseStringChars, h1, h2, h3, ih k hk, consChar]

theorem parseString_quote (s : String) (rest : List Char) :
    parseString (escapeChars s.data ++ '"' :: rest) = some (s.data, rest) := by
  unfold parseString
  apply parseStringChars_escapeChars
  have := length_le_escapeChars s.data
  simp only [List.length_append, List.length_cons]
  omega

theorem skipWhitespace_cons (c : Char) (cs : List Char) (h : isJSONWhitespace c = false) :
    skipWhitespace (c :: cs) = c :: cs := by
  simp [skipWhitespace, h]

theorem parseValue_quote (v : String) (rest : List Char) (fuel : Nat) :
    parseValue (fuel + 1) (quoteJSONString v ++ rest) = some (.string v, rest) := by
  have h := parseString_quote v rest
  simp only [quoteJSONString, List.cons_append, List.append_assoc, List.singleton_append,
    List.nil_append]
  rw [parseValue, skipWhitespace_cons _ _ (by decide)]
  simp [h]

theorem parseMembers_comma (k v : String) (rest : List Char) (acc : List (String × JSVal))
    (fuel : Nat) :
    parseMembers (fuel + 2) (quoteJSONString k ++ ':' :: (quoteJSONString v ++ ',' :: rest)) acc
      = parseMembers (fuel + 1) rest (setProperty k (.string v) acc) := by
  have hk := parseString_quote k (':' :: (quoteJSONString v ++ ',' :: rest))
  have hv := parseValue_quote v (',' :: rest) fuel
  rw [parseMembers]
  simp only [quoteJSONString, List.cons_append, List.append_assoc, List.singleton_append,
    List.nil_append] at hk hv ⊢
  rw [skipWhitespace_cons _ _ (by decide)]
  simp [hk, skipWhitespace_cons, isJSONWhitespace, hv]

theorem parseMembers_close (k v : String) (rest : List Char) (acc : List (String × JSVal))
    (fuel : Nat) :
    parseMembers (fuel + 2) (quoteJSONString k ++ ':' :: (quoteJSONString v ++ '\x7d' :: rest)) acc
      = some (.object (setProperty k (.string v) acc), rest) := by
  have hk := parseString_quote k (':' :: (quoteJSONString v ++ '\x7d' :: rest))
  have hv := parseValue_quote v ('\x7d' :: rest) fuel
  rw [parseMembers]
  simp only [quoteJSONString, List.cons_append, List.append_assoc, List.singleton_append,
    List.nil_append] at hk hv ⊢
  rw [skipWhitespace_cons _ _ (by decide)]
  simp [hk, skipWhitespace_cons, isJSONWhitespace, hv]

theorem parseMembers_stringify (ps : List (String × String)) :
    ∀ (k v : String) (acc : List (String × JSVal)) (rest : List Char) (fuel : Nat),
      ps.length + 2 ≤ fuel →
      parseMembers fuel
        (quoteJSONString k ++ ':' :: (quoteJSONString v ++ (stringifyMembersTail ps ++ '\x7d' :: rest)))
        acc
      = some (.object (defineAll ps (setProperty k (.string v) acc)), rest) := by
  induction ps with
  | nil =>
    intro k v acc rest fuel hf
    obtain ⟨n, rfl⟩ : ∃ n, fuel = n + 2 := ⟨fuel - 2, by simp at hf; omega⟩
    simpa [stringifyMembersTail, defineAll] using parseMembers_close k v rest acc n
  | cons p ps ih =>
    intro k v acc rest fuel hf
    obtain ⟨k1, v1⟩ := p
    obtain ⟨n, rfl⟩ : ∃ n, fuel = n + 2 := ⟨fuel - 2, by simp at hf; omega⟩
    have hn : ps.length + 2 ≤ n + 1 := by simp at hf; omega
    simp only [stringifyMembersTail, List.cons_append, List.append_assoc, defineAll]
    rw [parseMembers_comma, ih _ _ _ _ _ hn]

theorem length_le_stringifyMembersTail (ps : List (String × String)) :
    ps.length ≤ (stringifyMembersTail ps).length := by
  induction ps with
  | nil => simp
  | cons p ps ih =>
    obtain ⟨k, v⟩ := p
    simp only [stringifyMembersTail, List.length_cons, List.length_append]
    omega

/-- Decoding the serialisation of a record of strings gives the object the
record defines. -/
theorem JSONparse_JSONstringify (props : List (String × String)) :
    JSONparse (JSONstringify props) = .ok (.object (defineAll props [])) := by
  cases props with
  | nil => rfl
  | cons p ps =>
    obtain ⟨k, v⟩ := p
    have hlen := length_le_stringifyMembersTail ps
    have hfuel : ps.length + 2 ≤ 2 * (JSONstringify ((k, v) :: ps)).length + 1 := by
      simp only [JSONstringify, stringifyMembers, String.length, List.length_cons,
        List.length_append]
      omega
    unfold JSONparse
    rw [show 2 * (JSONstringify ((k, v) :: ps)).length + 2
          = (2 * (JSONstringify ((k, v) :: ps)).length + 1) + 1 from rfl]
    generalize 2 * (JSONstringify ((k, v) :: ps)).length + 1 = n at hfuel ⊢
    have hm := parseMembers_stringify ps k v [] [] n hfuel
    rw [parseValue]
    simp only [JSONstringify, stringifyMembers, List.append_assoc, List.cons_append,
      List.singleton_append, List.nil_append, quoteJSONString] at hm ⊢
    rw [skipWhitespace_cons _ _ (by decide)]
    simp only [Char.reduceEq, ite_true, ite_false, if_true, if_false]
    rw [skipWhitespace_cons _ _ (by decide)]
    simp [hm, skipWhitespace, defineAll]


theorem lookup_setHeader_self (name value : String) (hs : List (String × String)) :
    (setHeader name value hs).lookup name = some value := by
  induction hs with
  | nil => simp [setHeader, List.lookup]
  | cons p hs ih =>
    obtain ⟨k, w⟩ := p
    by_cases h : k = name
    · simp [setHeader, h, List.lookup]
    · have h1 : (name == k) = false := by simpa using fun e => h e.symm
      simp [setHeader, h, List.lookup, h1, ih]

theorem lookup_setHeader_other (name value other : String) (hs : List (String × String))
    (hne : other ≠ name) :
    (setHeader name value hs).lookup other = hs.lookup other := by
  induction hs with
  | nil =>
    have h1 : (other == name) = false := by simpa using hne
    simp [setHeader, List.lookup, h1]
  | cons p hs ih =>
    obtain ⟨k, w⟩ := p
    by_cases h : k = name
    · subst h
      have h1 : (other == k) = false := by simpa using hne
      simp [setHeader, List.lookup, h1]
    · by_cases h2 : other = k
      · simp [setHeader, h, List.lookup, h2]
      · have h3 : (other == k) = false := by simpa using h2
        simp [setHeader, h, List.lookup, h3, ih]

/-! ## The rendering of `toISOString` reads back as the time value -/

theorem yearOfEra_hint (doe yoe : Nat) (h : doe < 146097)
    (hy : yoe = (doe - doe / 1460 + doe / 36524 - doe / 146096) / 365) :
    doe / 1460 = yoe / 4 ∨ doe / 1460 = yoe / 4 + 1 ∨ doe / 1460 + 1 = yoe / 4 := by
  have h1 : doe / 36524 = 0 ∨ doe / 36524 = 1 ∨ doe / 36524 = 2 ∨ doe / 36524 = 3
      ∨ doe / 36524 = 4 := by omega
  have h2 : doe / 146096 = 0 ∨ doe / 146096 = 1 := by omega
  rcases h1 with h1 | h1 | h1 | h1 | h1 <;> rcases h2 with h2 | h2 <;> omega

theorem yearOfEra_bounds (doe yoe doy : Nat) (h : doe < 146097)
    (hy : yoe = (doe - doe / 1460 + doe / 36524 - doe / 146096) / 365)
    (hd : doy = doe - (365 * yoe + yoe / 4 - yoe / 100)) :
    yoe < 400 ∧ doe = 365 * yoe + yoe / 4 - yoe / 100 + doy ∧ doy ≤ 365 := by
  have hint := yearOfEra_hint doe yoe h hy
  have h1 : doe / 36524 = 0 ∨ doe / 36524 = 1 ∨ doe / 36524 = 2 ∨ doe / 36524 = 3
      ∨ doe / 36524 = 4 := by omega
  have h2 : doe / 146096 = 0 ∨ doe / 146096 = 1 := by omega
  have h3 : yoe ≤ 400 := by omega
  have h4 : yoe / 100 = 0 ∨ yoe / 100 = 1 ∨ yoe / 100 = 2 ∨ yoe / 100 = 3 ∨ yoe / 100 = 4 := by
    omega
  refine ⟨?_, ?_, ?_⟩
  · rcases h1 with h1 | h1 | h1 | h1 | h1 <;> rcases h2 with h2 | h2 <;>
    rcases h4 with h4 | h4 | h4 | h4 | h4 <;> rcases hint with h5 | h5 | h5 <;> omega
  · rcases h1 with h1 | h1 | h1 | h1 | h1 <;> rcases h2 with h2 | h2 <;>
    rcases h4 with h4 | h4 | h4 | h4 | h4 <;> rcases hint with h5 | h5 | h5 <;> omega
  · rcases h1 with h1 | h1 | h1 | h1 | h1 <;> rcases h2 with h2 | h2 <;>
    rcases h4 with h4 | h4 | h4 | h4 | h4 <;> rcases hint with h5 | h5 | h5 <;> omega

theorem yearOfEra_leap (doe yoe : Nat) (h : doe < 146097)
    (hy : yoe = (doe - doe / 1460 + doe / 36524 - doe / 146096) / 365)
    (hdoe : doe = 365 * yoe + yoe / 4 - yoe / 100 + 365) (hlt : yoe < 400) :
    (yoe + 1) % 4 = 0 ∧ ((yoe + 1) % 100 ≠ 0 ∨ yoe + 1 = 400) := by
  have h1 : doe / 36524 = 0 ∨ doe / 36524 = 1 ∨ doe / 36524 = 2 ∨ doe / 36524 = 3
      ∨ doe / 36524 = 4 := by omega
  have h2 : doe / 146096 = 0 ∨ doe / 146096 = 1 := by omega
  have h4 : yoe / 100 = 0 ∨ yoe / 100 = 1 ∨ yoe / 100 = 2 ∨ yoe / 100 = 3 := by omega
  have h5 : yoe % 4 = 0 ∨ yoe % 4 = 1 ∨ yoe % 4 = 2 ∨ yoe % 4 = 3 := by omega
  have h6 : yoe % 4 = 3 → doe / 1460 = yoe / 4 + 1 := by
    intro h7
    rcases h4 with h4 | h4 | h4 | h4 <;> omega
  have h7 : yoe % 4 ≠ 3 → doe / 1460 = yoe / 4 := by
    intro h7
    rcases h4 with h4 | h4 | h4 | h4 <;> omega
  rcases h5 with h5 | h5 | h5 | h5
  · have := h7 (by omega)
    rcases h1 with h1 | h1 | h1 | h1 | h1 <;> rcases h2 with h2 | h2 <;>
      rcases h4 with h4 | h4 | h4 | h4 <;> omega
  · have := h7 (by omega)
    rcases h1 with h1 | h1 | h1 | h1 | h1 <;> rcases h2 with h2 | h2 <;>
      rcases h4 with h4 | h4 | h4 | h4 <;> omega
  · have := h7 (by omega)
    rcases h1 with h1 | h1 | h1 | h1 | h1 <;> rcases h2 with h2 | h2 <;>
      rcases h4 with h4 | h4 | h4 | h4 <;> omega
  · have := h6 h5
    rcases h1 with h1 | h1 | h1 | h1 | h1 <;> rcases h2 with h2 | h2 <;>
      rcases h4 with h4 | h4 | h4 | h4 <;> omega

theorem monthOfYear_bounds (doy mp d : Nat) (h : doy ≤ 365)
    (hmp : mp = (5 * doy + 2) / 153) (hd : d = doy - (153 * mp + 2) / 5 + 1) :
    mp ≤ 11 ∧ 1 ≤ d ∧ doy + 1 = (153 * mp + 2) / 5 + d
    ∧ (153 * mp + 2) / 5 + d ≤ (153 * (mp + 1) + 2) / 5 := by
  omega

theorem isLeapYear_iff (y : Int) :
    isLeapYear y = true ↔ y % 4 = 0 ∧ (y % 100 ≠ 0 ∨ y % 400 = 0) := by
  simp [isLeapYear]

theorem dayFromYear_next (era : Int) (yoe : Nat) (hy : yoe < 400) :
    dayFromYear ((yoe : Int) + era * 400 + 1)
      = era * 146097 + ((365 * yoe + yoe / 4 - yoe / 100 : Nat) : Int) - 719468 + 306 := by
  unfold dayFromYear
  have h4 : yoe / 100 = 0 ∨ yoe / 100 = 1 ∨ yoe / 100 = 2 ∨ yoe / 100 = 3 := by omega
  have h5 : yoe % 4 = 0 ∨ yoe % 4 = 1 ∨ yoe % 4 = 2 ∨ yoe % 4 = 3 := by omega
  rcases h4 with h4 | h4 | h4 | h4 <;> rcases h5 with h5 | h5 | h5 | h5 <;> omega

theorem dayFromYear_same (era : Int) (yoe : Nat) (hy : yoe < 400) :
    dayFromYear ((yoe : Int) + era * 400) + 59
        + (if isLeapYear ((yoe : Int) + era * 400) then 1 else 0)
      = era * 146097 + ((365 * yoe + yoe / 4 - yoe / 100 : Nat) : Int) - 719468 := by
  unfold dayFromYear
  have hl := isLeapYear_iff ((yoe : Int) + era * 400)
  have h4 : yoe / 100 = 0 ∨ yoe / 100 = 1 ∨ yoe / 100 = 2 ∨ yoe / 100 = 3 := by omega
  have h5 : yoe % 4 = 0 ∨ yoe % 4 = 1 ∨ yoe % 4 = 2 ∨ yoe % 4 = 3 := by omega
  cases hb : isLeapYear ((yoe : Int) + era * 400) <;> simp [hb] at hl ⊢ <;>
    rcases h4 with h4 | h4 | h4 | h4 <;> rcases h5 with h5 | h5 | h5 | h5 <;> omega

theorem civil_arith (days era : Int) (doe yoe doy mp d m : Nat) (y : Int)
    (hera : era = (days + 719468) / 146097)
    (hdoe : doe = ((days + 719468) - era * 146097).toNat)
    (hyoe : yoe = (doe - doe / 1460 + doe / 36524 - doe / 146096) / 365)
    (hdoy : doy = doe - (365 * yoe + yoe / 4 - yoe / 100))
    (hmp : mp = (5 * doy + 2) / 153)
    (hd : d = doy - (153 * mp + 2) / 5 + 1)
    (hm : m = if mp < 10 then mp + 3 else mp - 9)
    (hy : y = if m ≤ 2 then (yoe : Int) + era * 400 + 1 else (yoe : Int) + era * 400) :
    1 ≤ m ∧ m ≤ 12 ∧ 1 ≤ d ∧ d ≤ daysInMonth (isLeapYear y) m
    ∧ dayFromYear y + (daysBeforeMonth (isLeapYear y) m : Int) + (d : Int) - 1 = days := by
  have hlt : doe < 146097 := by omega
  have hz : (doe : Int) = days + 719468 - era * 146097 := by omega
  obtain ⟨hy400, hsum, hdoy365⟩ := yearOfEra_bounds doe yoe doy hlt hyoe hdoy
  have hleap : doy = 365 → (yoe + 1) % 4 = 0 ∧ ((yoe + 1) % 100 ≠ 0 ∨ yoe + 1 = 400) := by
    intro h365
    exact yearOfEra_leap doe yoe hlt hyoe (by omega) hy400
  obtain ⟨hmp11, hd1, hdsum, hdlen⟩ := monthOfYear_bounds doy mp d hdoy365 hmp hd
  have hnext := dayFromYear_next era yoe hy400
  have hsame := dayFromYear_same era yoe hy400
  have hsum2 : ((365 * yoe + yoe / 4 - yoe / 100 : Nat) : Int) + (doy : Int) = (doe : Int) := by
    omega
  generalize ((365 * yoe + yoe / 4 - yoe / 100 : Nat) : Int) = start at hnext hsame hsum2
  clear hyoe hdoy hmp hd hera hdoe hsum
  have hcases : mp = 0 ∨ mp = 1 ∨ mp = 2 ∨ mp = 3 ∨ mp = 4 ∨ mp = 5 ∨ mp = 6 ∨ mp = 7
      ∨ mp = 8 ∨ mp = 9 ∨ mp = 10 ∨ mp = 11 := by omega
  have hl := isLeapYear_iff y
  rcases hcases with h | h | h | h | h | h | h | h | h | h | h | h <;> subst h <;>
    simp only [Nat.reduceLT, Nat.reduceAdd, Nat.reduceSub, if_true, if_false, ↓reduceIte] at hm <;>
    subst hm <;>
    simp only [Nat.reduceLeDiff, if_true, if_false, ↓reduceIte] at hy <;>
    subst hy <;>
    cases hb : isLeapYear _ <;>
    simp [hb, daysBeforeMonth, daysInMonth] at hl hsame ⊢ <;>
    omega

theorem digitValue_digitChar : ∀ k < 10, digitValue (Nat.digitChar k) = some k := by
  decide

theorem digitsValue_toDigitsCore (fuel : Nat) :
    ∀ (n : Nat) (ds : List Char), n < fuel →
      digitsValue 0 (Nat.toDigitsCore 10 fuel n ds) = digitsValue n ds := by
  induction fuel with
  | zero => intro n ds h; omega
  | succ f ih =>
    intro n ds h
    simp only [Nat.toDigitsCore]
    split
    · rename_i h0
      have hn : n < 10 := by omega
      simp only [digitsValue, digitValue_digitChar _ (Nat.mod_lt n (by decide))]
      have : 0 * 10 + n % 10 = n := by omega
      rw [this]
    · rename_i h0
      rw [ih (n / 10) _ (by omega)]
      simp only [digitsValue, digitValue_digitChar _ (Nat.mod_lt n (by decide))]
      have : n / 10 * 10 + n % 10 = n := by omega
      rw [this]

theorem digitsValue_repr (n : Nat) : digitsValue 0 (Nat.repr n).data = some n := by
  simp only [Nat.repr, Nat.toDigits, List.asString]
  rw [digitsValue_toDigitsCore _ _ _ (Nat.lt_succ_self n)]
  rfl

theorem digitsValue_zeros (k : Nat) (cs : List Char) :
    digitsValue 0 (List.replicate k '0' ++ cs) = digitsValue 0 cs := by
  induction k with
  | zero => rfl
  | succ k ih =>
    simp only [List.replicate_succ, List.cons_append, digitsValue]
    have : digitValue '0' = some 0 := by decide
    simp only [this]
    exact ih

theorem padDigits_value (w n : Nat) : digitsValue 0 (padDigits w n).data = some n := by
  simp only [padDigits, String.data_append]
  rw [digitsValue_zeros, digitsValue_repr]

theorem padDigits_length (w n : Nat) (hw : 0 < w) (hn : n < 10 ^ w) :
    (padDigits w n).data.length = w := by
  have h := Nat.repr_length n w hw hn
  simp only [padDigits, String.data_append, List.length_append, List.length_replicate,
    String.length] at h ⊢
  omega

theorem takeNumber_padDigits (w n : Nat) (rest : List Char) (hw : 0 < w) (hn : n < 10 ^ w) :
    takeNumber w ((padDigits w n).data ++ rest) = some (n, rest) := by
  have hl := padDigits_length w n hw hn
  have hv := padDigits_value w n
  unfold takeNumber
  rw [if_pos (by simp only [List.length_append]; omega)]
  rw [List.take_left' hl, List.drop_left' hl, hv]

theorem civilFromDays_spec (days : Int) :
    1 ≤ (civilFromDays days).2.1 ∧ (civilFromDays days).2.1 ≤ 12
    ∧ 1 ≤ (civilFromDays days).2.2
    ∧ (civilFromDays days).2.2
        ≤ daysInMonth (isLeapYear (civilFromDays days).1) (civilFromDays days).2.1
    ∧ dayFromYear (civilFromDays days).1
        + (daysBeforeMonth (isLeapYear (civilFromDays days).1) (civilFromDays days).2.1 : Int)
        + ((civilFromDays days).2.2 : Int) - 1 = days :=
  civil_arith days _ _ _ _ _ _ _ _ rfl rfl rfl rfl rfl rfl rfl rfl

theorem toISOString_data (t : Int) :
    (toISOString t).data
      = (isoYear (civilFromDays (t / 86400000)).1).data
        ++ '-' :: ((padDigits 2 (civilFromDays (t / 86400000)).2.1).data
        ++ '-' :: ((padDigits 2 (civilFromDays (t / 86400000)).2.2).data
        ++ 'T' :: ((padDigits 2 ((t % 86400000).toNat / 3600000)).data
        ++ ':' :: ((padDigits 2 ((t % 86400000).toNat / 60000 % 60)).data
        ++ ':' :: ((padDigits 2 ((t % 86400000).toNat / 1000 % 60)).data
        ++ '.' :: ((padDigits 3 ((t % 86400000).toNat % 1000)).data ++ ['Z'])))))) := by
  simp only [toISOString, String.data_append, List.append_assoc]
  rfl

theorem takeField_padDigits (sep : Char) (w n : Nat) (rest : List Char) (hw : 0 < w)
    (hn : n < 10 ^ w) :
    takeField sep w (sep :: ((padDigits w n).data ++ rest)) = some (n, rest) := by
  simp only [takeField, expectChar, if_true]
  exact takeNumber_padDigits w n rest hw hn

theorem parseISOYear_isoYear (y : Int) (rest : List Char)
    (hlo : -999999 ≤ y) (hhi : y ≤ 999999) :
    parseISOYear ((isoYear y).data ++ rest) = some (y, rest) := by
  unfold isoYear
  split
  · rename_i h
    have hn : y.toNat < 10 ^ 4 := by omega
    have hl := padDigits_length 4 y.toNat (by decide) hn
    have hv := padDigits_value 4 y.toNat
    have ht := takeNumber_padDigits 4 y.toNat rest (by decide) hn
    cases hd : (padDigits 4 y.toNat).data with
    | nil => rw [hd] at hl; simp at hl
    | cons c cs =>
      rw [hd] at hv ht
      have hc : digitValue c ≠ none := by
        intro hnone
        simp [digitsValue, hnone] at hv
      have h1 : c ≠ '+' := by
        intro e; subst e; exact hc (by decide)
      have h2 : c ≠ '-' := by
        intro e; subst e; exact hc (by decide)
      simp only [List.cons_append] at ht ⊢
      simp only [parseISOYear, if_neg h1, if_neg h2, ht]
      have : ((y.toNat : Nat) : Int) = y := by omega
      rw [this]
  · split
    · rename_i h1 h2
      have hn : (-y).toNat < 10 ^ 6 := by omega
      have ht := takeNumber_padDigits 6 (-y).toNat rest (by decide) hn
      have h0 : (-y).toNat ≠ 0 := by omega
      have hneg : '-' ≠ '+' := by decide
      simp only [String.data_append, show "-".data = ['-'] from rfl, List.cons_append,
        List.nil_append, parseISOYear, if_neg hneg, if_true, ht, if_neg h0]
      have : -(((-y).toNat : Nat) : Int) = y := by omega
      rw [this]
    · rename_i h1 h2
      have hn : y.toNat < 10 ^ 6 := by omega
      have ht := takeNumber_padDigits 6 y.toNat rest (by decide) hn
      simp only [String.data_append, show "+".data = ['+'] from rfl, List.cons_append,
        List.nil_append, parseISOYear, if_true, ht]
      have : ((y.toNat : Nat) : Int) = y := by omega
      rw [this]

/-- Reading back the rendering of a time value gives the time value: for every
time value in the range of `Date` (at most 8.64e15 ms from the epoch), the
string `toISOString` produces is in the date-time string format and denotes
that time value. -/
theorem parseISO_toISOString (t : Int) (hlo : -8640000000000000 ≤ t)
    (hhi : t ≤ 8640000000000000) : parseISO (toISOString t) = some t := by
  obtain ⟨hm1, hm12, hd1, hdm, hday⟩ := civilFromDays_spec (t / 86400000)
  have hdb : daysBeforeMonth (isLeapYear (civilFromDays (t / 86400000)).1)
      (civilFromDays (t / 86400000)).2.1 ≤ 335 := by
    generalize (civilFromDays (t / 86400000)).2.1 = m at hm1 hm12
    generalize isLeapYear (civilFromDays (t / 86400000)).1 = leap
    have hc : m = 1 ∨ m = 2 ∨ m = 3 ∨ m = 4 ∨ m = 5 ∨ m = 6 ∨ m = 7 ∨ m = 8 ∨ m = 9
        ∨ m = 10 ∨ m = 11 ∨ m = 12 := by omega
    rcases hc with h | h | h | h | h | h | h | h | h | h | h | h <;> subst h <;>
      cases leap <;> decide
  have hd31 : (civilFromDays (t / 86400000)).2.2 ≤ 31 := by
    refine Nat.le_trans hdm ?_
    unfold daysInMonth
    split_ifs <;> decide
  have hy : -999999 ≤ (civilFromDays (t / 86400000)).1
      ∧ (civilFromDays (t / 86400000)).1 ≤ 999999 := by
    unfold dayFromYear at hday
    omega
  unfold parseISO
  rw [toISOString_data, parseISOYear_isoYear _ _ hy.1 hy.2]
  simp only []
  rw [takeField_padDigits '-' 2 _ _ (by decide) (by simp only [Nat.reducePow]; omega)]
  simp only []
  rw [takeField_padDigits '-' 2 _ _ (by decide) (by simp only [Nat.reducePow]; omega)]
  simp only [parseISOClock]
  rw [takeField_padDigits 'T' 2 _ _ (by decide) (by simp only [Nat.reducePow]; omega)]
  simp only []
  rw [takeField_padDigits ':' 2 _ _ (by decide) (by simp only [Nat.reducePow]; omega)]
  simp only []
  rw [takeField_padDigits ':' 2 _ _ (by decide) (by simp only [Nat.reducePow]; omega)]
  simp only []
  have hms := takeField_padDigits '.' 3 ((t % 86400000).toNat % 1000) ['Z'] (by decide)
    (by simp only [Nat.reducePow]; omega)
  rw [hms]
  simp only [expectChar, if_true]
  have hv : validFields (civilFromDays (t / 86400000)).1 (civilFromDays (t / 86400000)).2.1
      (civilFromDays (t / 86400000)).2.2 ((t % 86400000).toNat / 3600000)
      ((t % 86400000).toNat / 60000 % 60) ((t % 86400000).toNat / 1000 % 60) = true := by
    simp only [validFields, Bool.and_eq_true, decide_eq_true_eq]
    refine ⟨⟨⟨⟨⟨⟨hm1, hm12⟩, hd1⟩, hdm⟩, ?_⟩, ?_⟩, ?_⟩ <;> omega
  rw [if_pos hv]
  congr 1
  unfold timeFromFields
  rw [hday]
  omega

/-- From the epoch to the end of the year 9999 the rendering has the 24
characters of `YYYY-MM-DDTHH:mm:ss.sssZ`. -/
theorem toISOString_length (t : Int) (hlo : 0 ≤ t) (hhi : t ≤ 253402300799999) :
    (toISOString t).length = 24 := by
  obtain ⟨hm1, hm12, hd1, hdm, hday⟩ := civilFromDays_spec (t / 86400000)
  have hdb : daysBeforeMonth (isLeapYear (civilFromDays (t / 86400000)).1)
      (civilFromDays (t / 86400000)).2.1 ≤ 335 := by
    generalize (civilFromDays (t / 86400000)).2.1 = m at hm1 hm12
    generalize isLeapYear (civilFromDays (t / 86400000)).1 = leap
    have hc : m = 1 ∨ m = 2 ∨ m = 3 ∨ m = 4 ∨ m = 5 ∨ m = 6 ∨ m = 7 ∨ m = 8 ∨ m = 9
        ∨ m = 10 ∨ m = 11 ∨ m = 12 := by omega
    rcases hc with h | h | h | h | h | h | h | h | h | h | h | h <;> subst h <;>
      cases leap <;> decide
  have hd31 : (civilFromDays (t / 86400000)).2.2 ≤ 31 := by
    refine Nat.le_trans hdm ?_
    unfold daysInMonth
    split_ifs <;> decide
  have hy : 0 ≤ (civilFromDays (t / 86400000)).1 ∧ (civilFromDays (t / 86400000)).1 ≤ 9999 := by
    unfold dayFromYear at hday
    omega
  have hyear : (isoYear (civilFromDays (t / 86400000)).1).data.length = 4 := by
    unfold isoYear
    rw [if_pos hy]
    exact padDigits_length 4 _ (by decide) (by simp only [Nat.reducePow]; omega)
  have h1 := padDigits_length 2 (civilFromDays (t / 86400000)).2.1 (by decide)
    (by simp only [Nat.reducePow]; omega)
  have h2 := padDigits_length 2 (civilFromDays (t / 86400000)).2.2 (by decide)
    (by simp only [Nat.reducePow]; omega)
  have h3 := padDigits_length 2 ((t % 86400000).toNat / 3600000) (by decide)
    (by simp only [Nat.reducePow]; omega)
  have h4 := padDigits_length 2 ((t % 86400000).toNat / 60000 % 60) (by decide)
    (by simp only [Nat.reducePow]; omega)
  have h5 := padDigits_length 2 ((t % 86400000).toNat / 1000 % 60) (by decide)
    (by simp only [Nat.reducePow]; omega)
  have h6 := padDigits_length 3 ((t % 86400000).toNat % 1000) (by decide)
    (by simp only [Nat.reducePow]; omega)
  simp only [String.length, toISOString_data, List.length_append, List.length_cons,
    List.length_nil, hyear, h1, h2, h3, h4, h5, h6]

/-! ## The fuel of `JSONparse` is never exhausted -/

theorem skipWhitespace_length_le (cs : List Char) :
    (skipWhitespace cs).length ≤ cs.length := by
  induction cs with
  | nil => simp [skipWhitespace]
  | cons c cs ih =>
    simp only [skipWhitespace]
    split
    · simp only [List.length_cons]; omega
    · exact Nat.le_refl _

theorem skipWhitespace_cons_length {cs rest : List Char} {c : Char}
    (h : skipWhitespace cs = c :: rest) : rest.length < cs.length := by
  have := skipWhitespace_length_le cs
  rw [h] at this
  simpa using this

theorem decodeEscape_length {cs rest : List Char} {ch : Char}
    (h : decodeEscape cs = some (ch, rest)) : rest.length < cs.length := by
  unfold decodeEscape at h
  repeat' split at h
  all_goals first
    | contradiction
    | (simp only [Option.some.injEq, Prod.mk.injEq] at h
       obtain ⟨_, rfl⟩ := h
       simp only [List.length_cons]
       omega)

theorem consChar_eq_some {c : Char} {x : Option (List Char × List Char)} {s rest : List Char}
    (h : consChar c x = some (s, rest)) : ∃ s1, x = some (s1, rest) := by
  cases x with
  | none => simp [consChar] at h
  | some p =>
    obtain ⟨s1, r1⟩ := p
    simp only [consChar, Option.some.injEq, Prod.mk.injEq] at h
    exact ⟨s1, by rw [h.2]⟩

theorem parseStringChars_length (fuel : Nat) :
    ∀ (cs s rest : List Char), parseStringChars fuel cs = some (s, rest) →
      rest.length < cs.length := by
  induction fuel with
  | zero => intro cs s rest h; simp [parseStringChars] at h
  | succ n ih =>
    intro cs s rest h
    cases cs with
    | nil => simp [parseStringChars] at h
    | cons c tl =>
      simp only [parseStringChars] at h
      split at h
      · simp only [Option.some.injEq, Prod.mk.injEq] at h
        obtain ⟨_, rfl⟩ := h
        simp
      · split at h
        · split at h
          · contradiction
          · rename_i ch rest1 hd
            obtain ⟨s1, hs⟩ := consChar_eq_some h
            have h1 := ih _ _ _ hs
            have h2 := decodeEscape_length hd
            simp only [List.length_cons]
            omega
        · split at h
          · contradiction
          · obtain ⟨s1, hs⟩ := consChar_eq_some h
            have h1 := ih _ _ _ hs
            simp only [List.length_cons]
            omega

/-- A string that decodes with some fuel decodes, with the same result, with
any fuel of at least the length of the input. -/
theorem parseStringChars_fuel (fuel : Nat) :
    ∀ (cs : List Char) (r : List Char × List Char), parseStringChars fuel cs = some r →
      ∀ g, cs.length ≤ g → parseStringChars g cs = some r := by
  induction fuel with
  | zero => intro cs r h; simp [parseStringChars] at h
  | succ n ih =>
    intro cs r h g hg
    cases cs with
    | nil => simp [parseStringChars] at h
    | cons c tl =>
      obtain ⟨g1, rfl⟩ : ∃ g1, g = g1 + 1 :=
        ⟨g - 1, by simp only [List.length_cons] at hg; omega⟩
      simp only [List.length_cons] at hg
      simp only [parseStringChars] at h ⊢
      by_cases hq : c = '"'
      · rw [if_pos hq] at h ⊢; exact h
      · rw [if_neg hq] at h ⊢
        by_cases hb : c = '\\'
        · rw [if_pos hb] at h ⊢
          cases hd : decodeEscape tl with
          | none => rw [hd] at h; contradiction
          | some p =>
            obtain ⟨ch, rest1⟩ := p
            have h1 := decodeEscape_length hd
            simp only [hd] at h ⊢
            cases hp : parseStringChars n rest1 with
            | none => rw [hp] at h; simp [consChar] at h
            | some q =>
              rw [ih _ _ hp g1 (by omega)]
              rw [hp] at h
              exact h
        · rw [if_neg hb] at h ⊢
          by_cases hctl : c.toNat < 32
          · rw [if_pos hctl] at h; contradiction
          · rw [if_neg hctl] at h ⊢
            cases hp : parseStringChars n tl with
            | none => rw [hp] at h; simp [consChar] at h
            | some q =>
              rw [ih _ _ hp g1 (by omega)]
              rw [hp] at h
              exact h

theorem parseString_length {cs s rest : List Char} (h : parseString cs = some (s, rest)) :
    rest.length < cs.length :=
  parseStringChars_length _ _ _ _ h

theorem expectWord_length (w : List Char) :
    ∀ (cs rest : List Char), expectWord w cs = some rest → rest.length ≤ cs.length := by
  induction w with
  | nil => intro cs rest h; simp [expectWord] at h; subst h; exact Nat.le_refl _
  | cons a w ih =>
    intro cs rest h
    cases cs with
    | nil => simp [expectWord] at h
    | cons c tl =>
      simp only [expectWord] at h
      split at h
      · have := ih _ _ h
        simp only [List.length_cons]; omega
      · contradiction

theorem takeDigits_length (cs : List Char) :
    ∀ (acc n : Nat), (takeDigits cs acc n).2.2.length ≤ cs.length := by
  induction cs with
  | nil => intro acc n; simp [takeDigits]
  | cons c tl ih =>
    intro acc n
    simp only [takeDigits]
    split
    · simp only [List.length_cons]
      exact Nat.le_succ_of_le (ih _ _)
    · exact Nat.le_refl _

theorem takeDigits_eq_length {cs rest : List Char} {acc n v k : Nat}
    (h : takeDigits cs acc n = (v, k, rest)) : rest.length ≤ cs.length := by
  have := takeDigits_length cs acc n
  rw [h] at this
  exact this

theorem parseExponent_length {cs rest : List Char} {e : Int}
    (h : parseExponent cs = some (e, rest)) : rest.length ≤ cs.length := by
  cases cs with
  | nil => simp [parseExponent] at h; simp [h.2]
  | cons c tl =>
    simp only [parseExponent] at h
    split at h
    · cases tl with
      | nil => simp at h
      | cons s tl1 =>
        simp only at h
        split at h
        · split at h
          · contradiction
          · rename_i v k rest1 _ heq
            simp only [Option.some.injEq, Prod.mk.injEq] at h
            obtain ⟨_, rfl⟩ := h
            have := takeDigits_eq_length heq
            simp only [List.length_cons]; omega
        · split at h
          · split at h
            · contradiction
            · rename_i v k rest1 _ heq
              simp only [Option.some.injEq, Prod.mk.injEq] at h
              obtain ⟨_, rfl⟩ := h
              have := takeDigits_eq_length heq
              simp only [List.length_cons]; omega
          · split at h
            · contradiction
            · rename_i v k rest1 _ heq
              simp only [Option.some.injEq, Prod.mk.injEq] at h
              obtain ⟨_, rfl⟩ := h
              have := takeDigits_eq_length heq
              simp only [List.length_cons] at this ⊢; omega
    · simp only [Option.some.injEq, Prod.mk.injEq] at h
      obtain ⟨_, rfl⟩ := h
      exact Nat.le_refl _

theorem parseFraction_length {cs rest : List Char} {ip v n : Nat}
    (h : parseFraction ip cs = some (v, n, rest)) : rest.length ≤ cs.length := by
  cases cs with
  | nil => simp [parseFraction] at h; simp [h.2.2]
  | cons c tl =>
    simp only [parseFraction] at h
    split at h
    · split at h
      · contradiction
      · rename_i v1 k rest1 _ heq
        simp only [Option.some.injEq, Prod.mk.injEq] at h
        obtain ⟨_, _, rfl⟩ := h
        have := takeDigits_eq_length heq
        simp only [List.length_cons]; omega
    · simp only [Option.some.injEq, Prod.mk.injEq] at h
      obtain ⟨_, _, rfl⟩ := h
      exact Nat.le_refl _

theorem parseUnsigned_length {cs rest : List Char} {v : Nat} {e : Int}
    (h : parseUnsigned cs = some (v, e, rest)) : rest.length < cs.length := by
  cases cs with
  | nil => simp [parseUnsigned] at h
  | cons c tl =>
    simp only [parseUnsigned] at h
    split at h
    · contradiction
    · rename_i d hd
      have hr : (if d = 0 then ((0 : Nat), (1 : Nat), tl) else takeDigits tl d 1).2.2.length
          ≤ tl.length := by
        split
        · exact Nat.le_refl _
        · exact takeDigits_length _ _ _
      generalize (if d = 0 then ((0 : Nat), (1 : Nat), tl) else takeDigits tl d 1) = t at h hr
      obtain ⟨ip, k, rest1⟩ := t
      simp only at h hr
      split at h
      · contradiction
      · rename_i v1 n rest2 hf
        split at h
        · contradiction
        · rename_i e1 rest3 he
          simp only [Option.some.injEq, Prod.mk.injEq] at h
          obtain ⟨_, _, rfl⟩ := h
          have h1 := parseFraction_length hf
          have h2 := parseExponent_length he
          simp only [List.length_cons]; omega

theorem parseNumber_length {cs rest : List Char} {v : JSVal}
    (h : parseNumber cs = some (v, rest)) : rest.length < cs.length := by
  cases cs with
  | nil => simp [parseNumber] at h
  | cons c tl =>
    simp only [parseNumber] at h
    split at h
    · split at h
      · contradiction
      · rename_i v1 e rest1 hu
        simp only [Option.some.injEq, Prod.mk.injEq] at h
        obtain ⟨_, rfl⟩ := h
        have := parseUnsigned_length hu
        simp only [List.length_cons]; omega
    · split at h
      · contradiction
      · rename_i v1 e rest1 hu
        simp only [Option.some.injEq, Prod.mk.injEq] at h
        obtain ⟨_, rfl⟩ := h
        exact parseUnsigned_length hu

/-- Every successful call of the three mutually recursive parsers consumes
input. -/
theorem parsers_consume (fuel : Nat) :
    (∀ (cs : List Char) (v : JSVal) (rest : List Char),
      parseValue fuel cs = some (v, rest) → rest.length < cs.length)
    ∧ (∀ (cs : List Char) (acc : List JSVal) (v : JSVal) (rest : List Char),
      parseElements fuel cs acc = some (v, rest) → rest.length < cs.length)
    ∧ (∀ (cs : List Char) (acc : List (String × JSVal)) (v : JSVal) (rest : List Char),
      parseMembers fuel cs acc = some (v, rest) → rest.length < cs.length) := by
  induction fuel with
  | zero =>
    refine ⟨?_, ?_, ?_⟩
    · intro cs v rest h; simp [parseValue] at h
    · intro cs acc v rest h; simp [parseElements] at h
    · intro cs acc v rest h; simp [parseMembers] at h
  | succ n ih =>
    obtain ⟨ihV, ihE, ihM⟩ := ih
    refine ⟨?_, ?_, ?_⟩
    · intro cs v rest h
      rw [parseValue] at h
      split at h
      · contradiction
      · rename_i c rest0 hws
        have h0 := skipWhitespace_cons_length hws
        split at h
        · split at h
          · contradiction
          · rename_i d rest1 hws1
            have h1 := skipWhitespace_cons_length hws1
            split at h
            · simp only [Option.some.injEq, Prod.mk.injEq] at h
              obtain ⟨_, rfl⟩ := h
              omega
            · have := ihM _ _ _ _ h
              simp only [List.length_cons] at this; omega
        · split at h
          · split at h
            · contradiction
            · rename_i d rest1 hws1
              have h1 := skipWhitespace_cons_length hws1
              split at h
              · simp only [Option.some.injEq, Prod.mk.injEq] at h
                obtain ⟨_, rfl⟩ := h
                omega
              · have := ihE _ _ _ _ h
                simp only [List.length_cons] at this; omega
          · split at h
            · split at h
              · contradiction
              · rename_i s rest1 hs
                simp only [Option.some.injEq, Prod.mk.injEq] at h
                obtain ⟨_, rfl⟩ := h
                have := parseString_length hs
                omega
            · split at h
              · split at h
                · contradiction
                · rename_i rest1 hw
                  simp only [Option.some.injEq, Prod.mk.injEq] at h
                  obtain ⟨_, rfl⟩ := h
                  have := expectWord_length _ _ _ hw
                  omega
              · split at h
                · split at h
                  · contradiction
                  · rename_i rest1 hw
                    simp only [Option.some.injEq, Prod.mk.injEq] at h
                    obtain ⟨_, rfl⟩ := h
                    have := expectWord_length _ _ _ hw
                    omega
                · split at h
                  · split at h
                    · contradiction
                    · rename_i rest1 hw
                      simp only [Option.some.injEq, Prod.mk.injEq] at h
                      obtain ⟨_, rfl⟩ := h
                      have := expectWord_length _ _ _ hw
                      omega
                  · have := parseNumber_length h
                    simp only [List.length_cons] at this; omega
    · intro cs acc v rest h
      rw [parseElements] at h
      split at h
      · contradiction
      · rename_i v1 rest0 hv
        have h0 := ihV _ _ _ hv
        split at h
        · contradiction
        · rename_i c rest1 hws
          have h1 := skipWhitespace_cons_length hws
          split at h
          · have := ihE _ _ _ _ h
            omega
          · split at h
            · simp only [Option.some.injEq, Prod.mk.injEq] at h
              obtain ⟨_, rfl⟩ := h
              omega
            · contradiction
    · intro cs acc v rest h
      rw [parseMembers] at h
      split at h
      · contradiction
      · rename_i q rest0 hws
        have h0 := skipWhitespace_cons_length hws
        split at h
        · split at h
          · contradiction
          · rename_i k rest1 hk
            have h1 := parseString_length hk
            split at h
            · contradiction
            · rename_i colon rest2 hws2
              have h2 := skipWhitespace_cons_length hws2
              split at h
              · split at h
                · contradiction
                · rename_i v1 rest3 hv
                  have h3 := ihV _ _ _ hv
                  split at h
                  · contradiction
                  · rename_i c rest4 hws4
                    have h4 := skipWhitespace_cons_length hws4
                    split at h
                    · have := ihM _ _ _ _ h
                      omega
                    · split at h
                      · simp only [Option.some.injEq, Prod.mk.injEq] at h
                        obtain ⟨_, rfl⟩ := h
                        omega
                      · contradiction
              · contradiction
        · contradiction

/-- A parse that succeeds with some fuel succeeds, with the same result, with
any fuel of at least twice the length of the input (plus one for the two
loops). -/
theorem parsers_fuel (fuel : Nat) :
    (∀ (cs : List Char) (r : JSVal × List Char), parseValue fuel cs = some r →
      ∀ g, 2 * cs.length ≤ g → parseValue g cs = some r)
    ∧ (∀ (cs : List Char) (acc : List JSVal) (r : JSVal × List Char),
      parseElements fuel cs acc = some r →
      ∀ g, 2 * cs.length + 1 ≤ g → parseElements g cs acc = some r)
    ∧ (∀ (cs : List Char) (acc : List (String × JSVal)) (r : JSVal × List Char),
      parseMembers fuel cs acc = some r →
      ∀ g, 2 * cs.length + 1 ≤ g → parseMembers g cs acc = some r) := by
  induction fuel with
  | zero =>
    refine ⟨?_, ?_, ?_⟩
    · intro cs r h; simp [parseValue] at h
    · intro cs acc r h; simp [parseElements] at h
    · intro cs acc r h; simp [parseMembers] at h
  | succ n ih =>
    obtain ⟨ihV, ihE, ihM⟩ := ih
    refine ⟨?_, ?_, ?_⟩
    · intro cs r h g hg
      rw [parseValue] at h
      cases hws : skipWhitespace cs with
      | nil => rw [hws] at h; contradiction
      | cons c rest0 =>
        have h0 := skipWhitespace_cons_length hws
        obtain ⟨g1, rfl⟩ : ∃ g1, g = g1 + 1 := ⟨g - 1, by omega⟩
        rw [parseValue]
        simp only [hws] at h ⊢
        by_cases hc : c = '\x7b'
        · rw [if_pos hc] at h ⊢
          cases hws1 : skipWhitespace rest0 with
          | nil => rw [hws1] at h; contradiction
          | cons d rest1 =>
            have h1 := skipWhitespace_cons_length hws1
            simp only [hws1] at h ⊢
            by_cases hd : d = '\x7d'
            · rw [if_pos hd] at h ⊢; exact h
            · rw [if_neg hd] at h ⊢
              exact ihM _ _ _ h g1 (by simp only [List.length_cons]; omega)
        · rw [if_neg hc] at h ⊢
          by_cases hb : c = '['
          · rw [if_pos hb] at h ⊢
            cases hws1 : skipWhitespace rest0 with
            | nil => rw [hws1] at h; contradiction
            | cons d rest1 =>
              have h1 := skipWhitespace_cons_length hws1
              simp only [hws1] at h ⊢
              by_cases hd : d = ']'
              · rw [if_pos hd] at h ⊢; exact h
              · rw [if_neg hd] at h ⊢
                exact ihE _ _ _ h g1 (by simp only [List.length_cons]; omega)
          · rw [if_neg hb] at h ⊢
            exact h
    · intro cs acc r h g hg
      rw [parseElements] at h
      obtain ⟨g1, rfl⟩ : ∃ g1, g = g1 + 1 := ⟨g - 1, by omega⟩
      rw [parseElements]
      cases hv : parseValue n cs with
      | none => rw [hv] at h; contradiction
      | some p =>
        obtain ⟨v, rest0⟩ := p
        have h0 := (parsers_consume n).1 _ _ _ hv
        rw [ihV _ _ hv g1 (by omega)]
        simp only [hv] at h ⊢
        cases hws : skipWhitespace rest0 with
        | nil => rw [hws] at h; contradiction
        | cons c rest1 =>
          have h1 := skipWhitespace_cons_length hws
          simp only [hws] at h ⊢
          by_cases hc : c = ','
          · rw [if_pos hc] at h ⊢
            exact ihE _ _ _ h g1 (by omega)
          · rw [if_neg hc] at h ⊢
            exact h
    · intro cs acc r h g hg
      rw [parseMembers] at h
      obtain ⟨g1, rfl⟩ : ∃ g1, g = g1 + 1 := ⟨g - 1, by omega⟩
      rw [parseMembers]
      cases hws : skipWhitespace cs with
      | nil => rw [hws] at h; contradiction
      | cons q rest0 =>
        have h0 := skipWhitespace_cons_length hws
        simp only [hws] at h ⊢
        by_cases hq : q = '"'
        · rw [if_pos hq] at h ⊢
          cases hk : parseString rest0 with
          | none => rw [hk] at h; contradiction
          | some p =>
            obtain ⟨k, rest1⟩ := p
            have h1 := parseString_length hk
            simp only [hk] at h ⊢
            cases hws2 : skipWhitespace rest1 with
            | nil => rw [hws2] at h; contradiction
            | cons colon rest2 =>
              have h2 := skipWhitespace_cons_length hws2
              simp only [hws2] at h ⊢
              by_cases hcol : colon = ':'
              · rw [if_pos hcol] at h ⊢
                cases hv : parseValue n rest2 with
                | none => rw [hv] at h; contradiction
                | some p2 =>
                  obtain ⟨v, rest3⟩ := p2
                  have h3 := (parsers_consume n).1 _ _ _ hv
                  rw [ihV _ _ hv g1 (by omega)]
                  simp only [hv] at h ⊢
                  cases hws4 : skipWhitespace rest3 with
                  | nil => rw [hws4] at h; contradiction
                  | cons c rest4 =>
                    have h4 := skipWhitespace_cons_length hws4
                    simp only [hws4] at h ⊢
                    by_cases hc : c = ','
                    · rw [if_pos hc] at h ⊢
                      exact ihM _ _ _ h g1 (by omega)
                    · rw [if_neg hc] at h ⊢
                      exact h
              · rw [if_neg hcol] at h; contradiction
        · rw [if_neg hq] at h; contradiction

/-- The fuel `JSONparse` supplies is enough: whenever the value parser accepts
a text with some fuel, `JSONparse` returns that same value (or rejects the
text for what follows the value), independently of the fuel. -/
theorem JSONparse_fuel_independent (text : String) (fuel : Nat) (r : JSVal × List Char)
    (h : parseValue fuel text.data = some r) :
    parseValue (2 * text.length + 2) text.data = some r :=
  (parsers_fuel fuel).1 _ _ h _ (by simp only [String.length]; omega)

/-! ## What each operation does, as one equation -/

theorem history_path_some (id : String) (hid : id ≠ "") :
    "/history" ++ (if truthyString (some id) then "/" ++ optionalToString (some id) else "")
      = "/history/" ++ id := by
  have h : truthyString (some id) = true := by simp [truthyString, hid]
  rw [h, if_pos rfl, optionalToString, ← String.append_assoc]
  rfl

theorem tryGet_run (api : Transport) (path : String) :
    (apiGet api path).run
      = match api path with
        | .ok r => (.ok r, [.httpGet path])
        | .error e => (.error e, [.httpGet path]) := by
  cases h : api path <;> simp only [apiGet, JS.run] <;>
    show (bind (emit (.httpGet path)) fun _ => liftExcept (api path)) [] = _ <;>
    rw [h] <;> rfl

theorem getChatHistory_run (api : Transport) (chatroomId : Option String) :
    (getChatHistory api chatroomId).run
      = match api ("/history"
            ++ (if truthyString chatroomId then "/" ++ optionalToString chatroomId else "")) with
        | .ok r =>
          (.ok r.data,
            [.httpGet ("/history"
              ++ (if truthyString chatroomId then "/" ++ optionalToString chatroomId else ""))])
        | .error e =>
          (.error e,
            [.httpGet ("/history"
              ++ (if truthyString chatroomId then "/" ++ optionalToString chatroomId else "")),
             .consoleError "채팅 히스토리 조회 오류:" (some e)]) := by
  simp only [getChatHistory, apiGet, JS.run]
  generalize "/history"
    ++ (if truthyString chatroomId then "/" ++ optionalToString chatroomId else "") = path
  cases api path <;> rfl

theorem getChatrooms_run (api : Transport) :
    (getChatrooms api).run
      = match api "/rooms" with
        | .ok r => (.ok r.data, [.httpGet "/rooms"])
        | .error e => (.error e, [.httpGet "/rooms"]) := by
  simp only [getChatrooms, apiGet, JS.run]
  cases api "/rooms" <;> rfl

theorem getRoomParticipants_run (api : Transport) (chatroomId : String) :
    (getRoomParticipants api chatroomId).run
      = match api ("/participants/" ++ chatroomId) with
        | .ok r => (.ok r.data, [.httpGet ("/participants/" ++ chatroomId)])
        | .error e => (.error e, [.httpGet ("/participants/" ++ chatroomId)]) := by
  simp only [getRoomParticipants, apiGet, JS.run]
  cases api ("/participants/" ++ chatroomId) <;> rfl

theorem messagesHandler_run (callback : Callback) (body : String) :
    (subscribeToMessages.handler callback ⟨body⟩).run
      = match JSONparse body with
        | .ok v => (.ok (), [.callback v])
        | .error _ => (.ok (), []) := by
  simp only [subscribeToMessages.handler, invoke, JS.run]
  cases JSONparse body with
  | error e => rfl
  | ok v =>
    show (tryCatch (bind (liftExcept (Except.ok v)) fun r =>
        bind (emit (.callback r)) fun _ => liftExcept (callback r)) fun _ => pure ()) [] = _
    cases h : callback v <;>
      simp [tryCatch, tryCatchThe, MonadExceptOf.tryCatch, MonadExcept.tryCatch, bind,
        liftExcept, emit, pure, h]

theorem participantsHandler_run (callback : Callback) (body : String) :
    (subscribeToParticipants.handler callback ⟨body⟩).run
      = match JSONparse body with
        | .ok v =>
          match callback v with
          | .ok _ => (.ok (), [.callback v])
          | .error e => (.ok (), [.callback v, .consoleLog "참여자 정보 파싱 오류 : " (some e)])
        | .error e => (.ok (), [.consoleLog "참여자 정보 파싱 오류 : " (some e)]) := by
  simp only [subscribeToParticipants.handler, invoke, JS.run]
  cases JSONparse body with
  | error e => rfl
  | ok v =>
    show (tryCatch (bind (liftExcept (Except.ok v)) fun r =>
        bind (emit (.callback r)) fun _ => liftExcept (callback r))
        fun error => emit (.consoleLog "참여자 정보 파싱 오류 : " (some error))) [] = _
    cases h : callback v <;>
      simp [tryCatch, tryCatchThe, MonadExceptOf.tryCatch, MonadExcept.tryCatch, bind,
        liftExcept, emit, pure, h]

theorem getChatHistory_empty_id (api : Transport) :
    requestedPaths (getChatHistory api (some "")).run.2 = ["/history"] := by
  rw [getChatHistory_run]
  show requestedPaths (match api "/history" with
    | .ok r => (Except.ok r.data, [Event.httpGet "/history"])
    | .error e => (Except.error e,
        [Event.httpGet "/history", Event.consoleError "채팅 히스토리 조회 오류:" (some e)])).2 = _
  cases api "/history" <;> rfl

/-! ## Claims -/

/-- C1: each publish helper returns `true` exactly when the client reports an
active connection, and hands exactly one frame to `publish` in that case and
none otherwise. -/
theorem publish_guard (now : Int) (stompClient : ClientRef)
    (message userId nickname chatroomId : String) :
    ((sendMessage now stompClient message userId nickname chatroomId).run.1
        = .ok stompClient.reportsConnected
      ∧ (publishedFrames (sendMessage now stompClient message userId nickname chatroomId).run.2).length
        = if stompClient.reportsConnected then 1 else 0)
    ∧ ((sendJoinMessage stompClient userId nickname chatroomId).run.1
        = .ok stompClient.reportsConnected
      ∧ (publishedFrames (sendJoinMessage stompClient userId nickname chatroomId).run.2).length
        = if stompClient.reportsConnected then 1 else 0)
    ∧ ((sendLeaveMessage stompClient userId nickname chatroomId).run.1
        = .ok stompClient.reportsConnected
      ∧ (publishedFrames (sendLeaveMessage stompClient userId nickname chatroomId).run.2).length
        = if stompClient.reportsConnected then 1 else 0) := by
  cases stompClient with
  | undefined => exact ⟨⟨rfl, rfl⟩, ⟨rfl, rfl⟩, ⟨rfl, rfl⟩⟩
  | null => exact ⟨⟨rfl, rfl⟩, ⟨rfl, rfl⟩, ⟨rfl, rfl⟩⟩
  | client c =>
    cases h : c.connected.toBoolean <;>
      simp only [sendMessage, sendJoinMessage, sendLeaveMessage, notConnected,
        ClientRef.reportsConnected, h] <;>
      exact ⟨⟨rfl, rfl⟩, ⟨rfl, rfl⟩, ⟨rfl, rfl⟩⟩

/-- C2: on a connected client `sendMessage` returns `true` and publishes
exactly one frame, to `/app/chat.send/` followed by the room id, with the
single header `content-type: application/json`, and a body that `JSON.parse`
decodes to the object with exactly the six fields `type`, `content`, `userId`,
`sender_nickname`, `chatroomId`, `sentAt`.  The `sentAt` field is the ISO
rendering of the clock value: for every time value a `Date` can hold it is a
string of the format `YYYY-MM-DDTHH:mm:ss.sssZ` that reads back as the clock
value, 24 characters long up to the year 9999; for instance the clock values
0, 1700000000000, -1 and 951782400000 are rendered as written below. -/
theorem sendMessage_frame (now : Int) (c : StompClient)
    (message userId nickname chatroomId : String)
    (hc : c.connected.toBoolean = true) :
    ∃ body sentAt : String,
      (sendMessage now (.client c) message userId nickname chatroomId).run
        = (.ok true,
            [Event.publish
              { destination := "/app/chat.send/" ++ chatroomId
                body := body
                headers := [("content-type", "application/json")] }])
      ∧ JSONparse body
        = .ok (.object
            [("type", .string "text"), ("content", .string message),
             ("userId", .string userId), ("sender_nickname", .string nickname),
             ("chatroomId", .string chatroomId), ("sentAt", .string sentAt)])
      ∧ sentAt = toISOString now
      ∧ (-8640000000000000 ≤ now → now ≤ 8640000000000000 → parseISO sentAt = some now)
      ∧ (0 ≤ now → now ≤ 253402300799999 → sentAt.length = 24)
      ∧ toISOString 0 = "1970-01-01T00:00:00.000Z"
      ∧ toISOString 1700000000000 = "2023-11-14T22:13:20.000Z"
      ∧ toISOString (-1) = "1969-12-31T23:59:59.999Z"
      ∧ toISOString 951782400000 = "2000-02-29T00:00:00.000Z" := by
  refine ⟨JSONstringify
    [("type", "text"), ("content", message), ("userId", userId),
     ("sender_nickname", nickname), ("chatroomId", chatroomId),
     ("sentAt", toISOString now)], toISOString now, ?_, ?_, rfl, ?_, ?_,
     by decide, by decide, by decide, by decide⟩
  · simp only [sendMessage, notConnected, hc]
    rfl
  · rw [JSONparse_JSONstringify]
    rfl
  · exact parseISO_toISOString now
  · exact toISOString_length now

/-- C2, at a concrete input: a client whose flag is `true`, clock value
1700000000000, rendered as `2023-11-14T22:13:20.000Z`. -/
theorem sendMessage_frame_witness :
    (JSVal.bool true).toBoolean = true
    ∧ ∃ body : String,
      (sendMessage 1700000000000 (.client ⟨.bool true⟩) "hello" "u1" "Alice" "room42").run
        = (.ok true,
            [Event.publish
              { destination := "/app/chat.send/" ++ "room42"
                body := body
                headers := [("content-type", "application/json")] }])
      ∧ JSONparse body
        = .ok (.object
            [("type", .string "text"), ("content", .string "hello"),
             ("userId", .string "u1"), ("sender_nickname", .string "Alice"),
             ("chatroomId", .string "room42"),
             ("sentAt", .string "2023-11-14T22:13:20.000Z")])
      ∧ parseISO "2023-11-14T22:13:20.000Z" = some 1700000000000
      ∧ "2023-11-14T22:13:20.000Z".length = 24 := by
  obtain ⟨body, sentAt, h1, h2, h3, h4, h5, _, h7, _, _⟩ :=
    sendMessage_frame 1700000000000 ⟨.bool true⟩ "hello" "u1" "Alice" "room42" rfl
  rw [h7] at h3
  subst h3
  exact ⟨rfl, body, h1, h2, h4 (by decide) (by decide), h5 (by decide) (by decide)⟩

/-- C3: on a connected client `sendJoinMessage` and `sendLeaveMessage` return
`true` and publish exactly one frame each, to `/app/chat.join/` and
`/app/chat.leave/` followed by the room id; both bodies are the serialisation
of the object with the two fields `userId`, `nickname` in that order (the text
`\x7b"userId":…,"nickname":…\x7d`, which decodes to that object), both carry the
single header `content-type: application/json`, so the two frames differ only
in the destination; the call with "u1", "Alice", "room42" publishes the body
`\x7b"userId":"u1","nickname":"Alice"\x7d` to `/app/chat.join/room42`. -/
theorem sendJoinLeave_frames (c : StompClient) (userId nickname chatroomId : String)
    (hc : c.connected.toBoolean = true) :
    ∃ body : String,
      (sendJoinMessage (.client c) userId nickname chatroomId).run
        = (.ok true,
            [Event.publish
              { destination := "/app/chat.join/" ++ chatroomId
                body := body
                headers := [("content-type", "application/json")] }])
      ∧ (sendLeaveMessage (.client c) userId nickname chatroomId).run
        = (.ok true,
            [Event.publish
              { destination := "/app/chat.leave/" ++ chatroomId
                body := body
                headers := [("content-type", "application/json")] }])
      ∧ body.data
        = "\x7b\"userId\":".data ++ quoteJSONString userId
            ++ ",\"nickname\":".data ++ quoteJSONString nickname ++ "\x7d".data
      ∧ JSONparse body
        = .ok (.object [("userId", .string userId), ("nickname", .string nickname)])
      ∧ (sendJoinMessage (.client c) "u1" "Alice" "room42").run
        = (.ok true,
            [Event.publish
              { destination := "/app/chat.join/room42"
                body := "\x7b\"userId\":\"u1\",\"nickname\":\"Alice\"\x7d"
                headers := [("content-type", "application/json")] }]) := by
  refine ⟨JSONstringify [("userId", userId), ("nickname", nickname)], ?_, ?_, ?_, ?_, ?_⟩
  · simp only [sendJoinMessage, notConnected, hc]
    rfl
  · simp only [sendLeaveMessage, notConnected, hc]
    rfl
  · have h1 : quoteJSONString "userId" = "\"userId\"".data := by rfl
    have h2 : quoteJSONString "nickname" = "\"nickname\"".data := by rfl
    simp [JSONstringify, stringifyMembers, stringifyMembersTail, h1, h2]
  · rw [JSONparse_JSONstringify]
    rfl
  · simp only [sendJoinMessage, notConnected, hc]
    rfl

/-- C3, at a concrete input: a client whose flag is `true`. -/
theorem sendJoinLeave_frames_witness :
    (JSVal.bool true).toBoolean = true
    ∧ ∃ body : String,
      (sendJoinMessage (.client ⟨.bool true⟩) "u7" "Bob" "lobby").run
        = (.ok true,
            [Event.publish
              { destination := "/app/chat.join/" ++ "lobby"
                body := body
                headers := [("content-type", "application/json")] }])
      ∧ (sendLeaveMessage (.client ⟨.bool true⟩) "u7" "Bob" "lobby").run
        = (.ok true,
            [Event.publish
              { destination := "/app/chat.leave/" ++ "lobby"
                body := body
                headers := [("content-type", "application/json")] }])
      ∧ body.data
        = "\x7b\"userId\":".data ++ quoteJSONString "u7"
            ++ ",\"nickname\":".data ++ quoteJSONString "Bob" ++ "\x7d".data
      ∧ JSONparse body
        = .ok (.object [("userId", .string "u7"), ("nickname", .string "Bob")])
      ∧ (sendJoinMessage (.client ⟨.bool true⟩) "u1" "Alice" "room42").run
        = (.ok true,
            [Event.publish
              { destination := "/app/chat.join/room42"
                body := "\x7b\"userId\":\"u1\",\"nickname\":\"Alice\"\x7d"
                headers := [("content-type", "application/json")] }]) :=
  ⟨rfl, sendJoinLeave_frames ⟨.bool true⟩ "u7" "Bob" "lobby" rfl⟩

/-- C4: for a chatroom identifier (a non-empty string) `getChatHistory` issues
one GET, to `/history/` followed by the identifier; without argument it issues
one GET to exactly `/history`. -/
theorem getChatHistory_path (api : Transport) (id : String) (hid : id ≠ "") :
    requestedPaths (getChatHistory api (some id)).run.2 = ["/history/" ++ id]
    ∧ requestedPaths (getChatHistory api none).run.2 = ["/history"] := by
  constructor
  · rw [getChatHistory_run, history_path_some id hid]
    cases api ("/history/" ++ id) <;> rfl
  · rw [getChatHistory_run]
    show requestedPaths (match api "/history" with
      | .ok r => (Except.ok r.data, [Event.httpGet "/history"])
      | .error e => (Except.error e,
          [Event.httpGet "/history", Event.consoleError "채팅 히스토리 조회 오류:" (some e)])).2 = _
    cases api "/history" <;> rfl

/-- C4, at a concrete input: the identifier "room42". -/
theorem getChatHistory_path_witness :
    "room42" ≠ ""
    ∧ requestedPaths (getChatHistory (fun _ => .ok ⟨.null⟩) (some "room42")).run.2
        = ["/history/" ++ "room42"]
    ∧ requestedPaths (getChatHistory (fun _ => .ok ⟨.null⟩) none).run.2 = ["/history"] :=
  ⟨by decide, getChatHistory_path (fun _ => .ok ⟨.null⟩) "room42" (by decide)⟩

/-- C5 as stated fails: with the empty string stored under `token` (a token
present in storage) the interceptor adds no Authorization header at all,
instead of `Bearer ` followed by the token. -/
theorem requestInterceptor_empty_token :
    Storage.getItem [("token", "")] "token" = some ""
    ∧ (requestInterceptor [("token", "")] { url := "/rooms", headers := [] }).headers.lookup
        "Authorization" = none
    ∧ (requestInterceptor [("token", "")] { url := "/rooms", headers := [] }).headers.lookup
        "Authorization" ≠ some ("Bearer " ++ "") := by
  decide

/-- C5, amended: when storage holds a non-empty token the interceptor returns
the config with the Authorization header set to `Bearer ` followed by the
token, every other header and the target unchanged; when storage holds no
token or the empty string it returns the config unchanged. -/
theorem requestInterceptor_contract (localStorage : Storage) (config : RequestConfig) :
    (∀ token : String, localStorage.getItem "token" = some token → token ≠ "" →
      (requestInterceptor localStorage config).headers.lookup "Authorization"
          = some ("Bearer " ++ token)
        ∧ (∀ other : String, other ≠ "Authorization" →
            (requestInterceptor localStorage config).headers.lookup other
              = config.headers.lookup other)
        ∧ (requestInterceptor localStorage config).url = config.url)
    ∧ (localStorage.getItem "token" = none ∨ localStorage.getItem "token" = some "" →
        requestInterceptor localStorage config = config) := by
  constructor
  · intro token ht hne
    have h : truthyString (some token) = true := by simp [truthyString, hne]
    have hr : requestInterceptor localStorage config
        = { config with
            headers := setHeader "Authorization" ("Bearer " ++ token) config.headers } := by
      simp only [requestInterceptor, ht, h, if_true, nullableToString]
    rw [hr]
    exact ⟨lookup_setHeader_self _ _ _, fun other ho => lookup_setHeader_other _ _ _ _ ho, rfl⟩
  · rintro (h | h) <;> simp [requestInterceptor, h, truthyString]

/-- C5, amended, at concrete inputs: the token "abc", and the empty token. -/
theorem requestInterceptor_contract_witness :
    (requestInterceptor [("token", "abc")]
        { url := "/rooms", headers := [("Accept", "application/json")] }).headers.lookup
        "Authorization" = some ("Bearer " ++ "abc")
    ∧ requestInterceptor [("token", "")]
        { url := "/rooms", headers := [("Accept", "application/json")] }
      = { url := "/rooms", headers := [("Accept", "application/json")] } :=
  ⟨((requestInterceptor_contract [("token", "abc")]
        { url := "/rooms", headers := [("Accept", "application/json")] }).1
      "abc" rfl (by decide)).1,
   (requestInterceptor_contract [("token", "")]
        { url := "/rooms", headers := [("Accept", "application/json")] }).2 (Or.inr rfl)⟩

/-- C6: on a client object `subscribeToMessages` subscribes to `/topic/chat/`
followed by the room id, and the handler it installs invokes the callback
exactly once, with the decoded value, on a frame whose body is valid JSON, and
not at all on a frame whose body is not. -/
theorem subscribeToMessages_dispatch (c : StompClient) (chatroomId : String)
    (callback : Callback) :
    ∃ sub : Subscription,
      (subscribeToMessages (.client c) chatroomId callback).run = (.ok sub, [])
      ∧ sub.destination = "/topic/chat/" ++ chatroomId
      ∧ (∀ (body : String) (v : JSVal), JSONparse body = .ok v →
          callbackArgs (sub.onMessage ⟨body⟩).run.2 = [v])
      ∧ (∀ (body : String) (e : JSError), JSONparse body = .error e →
          callbackArgs (sub.onMessage ⟨body⟩).run.2 = []) := by
  refine ⟨{ destination := "/topic/chat/" ++ chatroomId,
            onMessage := subscribeToMessages.handler callback }, rfl, rfl, ?_, ?_⟩
  · intro body v h
    rw [messagesHandler_run, h]
    rfl
  · intro body e h
    rw [messagesHandler_run, h]
    rfl

/-- C6, at concrete inputs: the valid body `"hi"` and the malformed body `oops`. -/
theorem subscribeToMessages_dispatch_witness :
    ∃ sub : Subscription,
      (subscribeToMessages (.client ⟨.bool true⟩) "room42" (fun _ => .ok ())).run = (.ok sub, [])
      ∧ sub.destination = "/topic/chat/" ++ "room42"
      ∧ callbackArgs (sub.onMessage ⟨"\"hi\""⟩).run.2 = [.string "hi"]
      ∧ callbackArgs (sub.onMessage ⟨"oops"⟩).run.2 = [] := by
  obtain ⟨sub, h1, h2, h3, h4⟩ :=
    subscribeToMessages_dispatch ⟨.bool true⟩ "room42" (fun _ => .ok ())
  exact ⟨sub, h1, h2, h3 "\"hi\"" (.string "hi") rfl, h4 "oops" jsonSyntaxError rfl⟩

/-- C7 as stated fails: the frame body `1` is valid JSON, yet with a callback
that throws the participants handler writes a log entry and the messages
handler writes none, so the two handlers also differ on a frame that is not
malformed; hence it is false that the participants handler logs on malformed
frames only. -/
theorem participants_log_on_valid_frame :
    JSONparse "1" = .ok (.number (.decimal 1 0))
    ∧ (subscribeToMessages.handler (fun _ => .error ⟨"Error", "boom"⟩) ⟨"1"⟩).run
        = (.ok (), [.callback (.number (.decimal 1 0))])
    ∧ (subscribeToParticipants.handler (fun _ => .error ⟨"Error", "boom"⟩) ⟨"1"⟩).run
        = (.ok (),
            [.callback (.number (.decimal 1 0)),
             .consoleLog "참여자 정보 파싱 오류 : " (some ⟨"Error", "boom"⟩)])
    ∧ logCount (subscribeToMessages.handler (fun _ => .error ⟨"Error", "boom"⟩) ⟨"1"⟩).run.2 = 0
    ∧ logCount (subscribeToParticipants.handler (fun _ => .error ⟨"Error", "boom"⟩) ⟨"1"⟩).run.2
        = 1
    ∧ ¬ (∀ (callback : Callback) (body : String),
          logCount (subscribeToMessages.handler callback ⟨body⟩).run.2 = 0
          ∧ logCount (subscribeToParticipants.handler callback ⟨body⟩).run.2
            = (match JSONparse body with
              | .ok _ => 0
              | .error _ => 1)) := by
  refine ⟨rfl, rfl, rfl, rfl, rfl, ?_⟩
  intro h
  have h1 := (h (fun _ => .error ⟨"Error", "boom"⟩) "1").2
  have h2 : logCount
      (subscribeToParticipants.handler (fun _ => .error ⟨"Error", "boom"⟩) ⟨"1"⟩).run.2 = 1 := rfl
  have h3 : (match JSONparse "1" with
      | .ok _ => 0
      | .error _ => 1) = 0 := rfl
  rw [h2, h3] at h1
  exact absurd h1 (by decide)

/-- C7, amended: `subscribeToParticipants` subscribes to `/topic/participants/`
followed by the room id; for every frame body and every callback its handler
and the messages handler make the same callback invocations (one with the
decoded value for valid JSON, none for malformed JSON) and both return
normally; the messages handler never logs, and the participants handler writes
exactly one log entry when the body is malformed or the callback throws on the
decoded value, and none otherwise. -/
theorem subscribeToParticipants_refines (c : StompClient) (chatroomId : String)
    (callback : Callback) :
    ∃ sub : Subscription,
      (subscribeToParticipants (.client c) chatroomId callback).run = (.ok sub, [])
      ∧ sub.destination = "/topic/participants/" ++ chatroomId
      ∧ ∀ body : String,
          callbackArgs (sub.onMessage ⟨body⟩).run.2
            = callbackArgs (subscribeToMessages.handler callback ⟨body⟩).run.2
          ∧ callbackArgs (sub.onMessage ⟨body⟩).run.2
            = (match JSONparse body with
              | .ok v => [v]
              | .error _ => [])
          ∧ (sub.onMessage ⟨body⟩).run.1 = .ok ()
          ∧ (subscribeToMessages.handler callback ⟨body⟩).run.1 = .ok ()
          ∧ logCount (subscribeToMessages.handler callback ⟨body⟩).run.2 = 0
          ∧ logCount (sub.onMessage ⟨body⟩).run.2
            = (match JSONparse body with
              | .ok v =>
                match callback v with
                | .ok _ => 0
                | .error _ => 1
              | .error _ => 1) := by
  refine ⟨{ destination := "/topic/participants/" ++ chatroomId,
            onMessage := subscribeToParticipants.handler callback }, rfl, rfl, ?_⟩
  intro body
  simp only [participantsHandler_run, messagesHandler_run]
  cases JSONparse body with
  | error e => exact ⟨rfl, rfl, rfl, rfl, rfl, rfl⟩
  | ok v =>
    cases h : callback v <;> simp only [h] <;>
      refine ⟨?_, ?_, ?_, ?_, ?_, ?_⟩ <;> first | rfl | trivial

/-- C8: each of the three GET operations returns exactly the `data` field of
the transport's response, and fails with the transport's own error, unchanged,
when the transport fails; `getChatHistory` writes one log entry on failure
(none on success), `getChatrooms` and `getRoomParticipants` never write one. -/
theorem http_operations_passthrough (api : Transport) (historyId : Option String)
    (roomId : String) :
    ((getChatHistory api historyId).run.1
        = (api ("/history"
            ++ (if truthyString historyId then "/" ++ optionalToString historyId else ""))).map
            Response.data
      ∧ logCount (getChatHistory api historyId).run.2
        = (match api ("/history"
            ++ (if truthyString historyId then "/" ++ optionalToString historyId else "")) with
          | .ok _ => 0
          | .error _ => 1))
    ∧ ((getChatrooms api).run.1 = (api "/rooms").map Response.data
      ∧ logCount (getChatrooms api).run.2 = 0)
    ∧ ((getRoomParticipants api roomId).run.1
        = (api ("/participants/" ++ roomId)).map Response.data
      ∧ logCount (getRoomParticipants api roomId).run.2 = 0) := by
  rw [getChatHistory_run, getChatrooms_run, getRoomParticipants_run]
  refine ⟨?_, ?_, ?_⟩
  · cases api ("/history"
        ++ (if truthyString historyId then "/" ++ optionalToString historyId else "")) <;>
      exact ⟨rfl, rfl⟩
  · cases api "/rooms" <;> exact ⟨rfl, rfl⟩
  · cases api ("/participants/" ++ roomId) <;> exact ⟨rfl, rfl⟩

/-- C9: the handlers installed by `subscribeToMessages` and
`subscribeToParticipants` return normally for every frame body and every
callback; when the callback throws on a validly decoded value the error is
swallowed after the one invocation, silently by the messages handler and with
one log entry by the participants handler. -/
theorem handlers_never_raise (callback : Callback) (body : String) :
    (subscribeToMessages.handler callback ⟨body⟩).run.1 = .ok ()
    ∧ (subscribeToParticipants.handler callback ⟨body⟩).run.1 = .ok ()
    ∧ ∀ (v : JSVal) (e : JSError), JSONparse body = .ok v → callback v = .error e →
        (subscribeToMessages.handler callback ⟨body⟩).run = (.ok (), [.callback v])
        ∧ (subscribeToParticipants.handler callback ⟨body⟩).run
          = (.ok (), [.callback v, .consoleLog "참여자 정보 파싱 오류 : " (some e)])
        ∧ logCount (subscribeToMessages.handler callback ⟨body⟩).run.2 = 0
        ∧ logCount (subscribeToParticipants.handler callback ⟨body⟩).run.2 = 1 := by
  simp only [participantsHandler_run, messagesHandler_run]
  refine ⟨?_, ?_, ?_⟩
  · cases JSONparse body <;> rfl
  · cases JSONparse body with
    | error e => rfl
    | ok v => cases h : callback v <;> simp only [h]
  · intro v e hv he
    rw [hv]
    simp only [he]
    refine ⟨?_, ?_, ?_, ?_⟩ <;> first | rfl | trivial

/-- C9, at a concrete input: the valid body `true` and a callback that throws. -/
theorem handlers_never_raise_witness :
    (subscribeToMessages.handler (fun _ => .error ⟨"Error", "boom"⟩) ⟨"true"⟩).run
      = (.ok (), [.callback (.bool true)])
    ∧ (subscribeToParticipants.handler (fun _ => .error ⟨"Error", "boom"⟩) ⟨"true"⟩).run
      = (.ok (),
          [.callback (.bool true),
           .consoleLog "참여자 정보 파싱 오류 : " (some ⟨"Error", "boom"⟩)])
    ∧ logCount (subscribeToMessages.handler (fun _ => .error ⟨"Error", "boom"⟩) ⟨"true"⟩).run.2
      = 0
    ∧ logCount
        (subscribeToParticipants.handler (fun _ => .error ⟨"Error", "boom"⟩) ⟨"true"⟩).run.2
      = 1 :=
  (handlers_never_raise (fun _ => .error ⟨"Error", "boom"⟩) "true").2.2
    (.bool true) ⟨"Error", "boom"⟩ rfl rfl

/-- C10: for every storage state the configuration built by `createStompClient`
has exactly one connect header, Authorization; its value is `Bearer ` followed
by the token when storage holds a non-empty token, and the empty string when
the token is absent or empty, a case in which the HTTP interceptor leaves the
request headers unchanged; `reconnectDelay` is 5000 and both heartbeats are
4000 whatever the token. -/
theorem createStompClient_config (localStorage : Storage) :
    (∃ value : String, (createStompClient localStorage).connectHeaders
        = [("Authorization", value)])
    ∧ (∀ token : String, localStorage.getItem "token" = some token → token ≠ "" →
        (createStompClient localStorage).connectHeaders
          = [("Authorization", "Bearer " ++ token)])
    ∧ (localStorage.getItem "token" = none ∨ localStorage.getItem "token" = some "" →
        (createStompClient localStorage).connectHeaders = [("Authorization", "")]
        ∧ (createStompClient localStorage).connectHeaders.lookup "Authorization" = some ""
        ∧ ∀ config : RequestConfig, requestInterceptor localStorage config = config)
    ∧ (createStompClient localStorage).reconnectDelay = 5000
    ∧ (createStompClient localStorage).heartbeatIncoming = 4000
    ∧ (createStompClient localStorage).heartbeatOutgoing = 4000 := by
  refine ⟨⟨_, rfl⟩, ?_, ?_, rfl, rfl, rfl⟩
  · intro token ht hne
    have h : truthyString (some token) = true := by simp [truthyString, hne]
    simp only [createStompClient, ht, h, if_true, nullableToString]
  · rintro (h | h) <;>
      simp [createStompClient, requestInterceptor, h, truthyString, List.lookup]

/-- C10, at concrete inputs: the token "abc", and an empty store. -/
theorem createStompClient_config_witness :
    (createStompClient [("token", "abc")]).connectHeaders
      = [("Authorization", "Bearer " ++ "abc")]
    ∧ (createStompClient []).connectHeaders = [("Authorization", "")]
    ∧ (createStompClient []).connectHeaders.lookup "Authorization" = some ""
    ∧ ∀ config : RequestConfig, requestInterceptor [] config = config :=
  ⟨(createStompClient_config [("token", "abc")]).2.1 "abc" rfl (by decide),
   (createStompClient_config []).2.2.1 (Or.inl rfl)⟩

end ChatApi
